import Mathlib

/-
Verification of the event binding and delegation subsystem of ddom.js.

The repository file src/ddom.js holds two evolutionary variants of the
library: an older one (prototype version 0.2, lines 1-1619) and the
current one (prototype version 0.3, lines 1620-3242).  The claims cite
code in both, so both are embedded below: namespace `DDom.V3` models the
current variant and namespace `DDom.V2` models the legacy variant.

Modelling conventions:
  - platform element handles, user callback functions and dispatch
    wrapper closures are identified by natural numbers; a fresh number is
    drawn from a counter whenever the source allocates a fresh closure
    with Function.prototype.bind;
  - a user callback invocation is modelled by its observable outcome
    `CbResult`: either it returned a value (we track whether that value
    is exactly the boolean false) or it threw an error;
  - the platform listener list (addEventListener / removeEventListener /
    event delivery) is a list of registrations keyed, as in the DOM, by
    (element, event name, listener function identity, capture flag);
    addEventListener ignores a re-registration of an identical key;
  - the WeakMap handler cache is an association list from element id to
    the list of listener records, in insertion order (a JS Set iterates
    in insertion order, so a list is a faithful image of it);
  - selector matching is an oracle `m : String -> Nat -> Bool` supplied
    by the platform (selector text, element id); an element owns a
    `matches` function exactly when its nodeType is 1 (Element).
-/

namespace DDom

/-- Observable outcome of invoking a user callback once: it either
returned (and we track whether the returned value was exactly the
boolean `false`) or it threw an error with a name and a message. -/
inductive CbResult where
  | ret (isF : Bool)
  | thrown (name : String) (msg : String)
deriving DecidableEq, Repr

/-- A JavaScript error value, by name and message. -/
structure JsError where
  name : String
  msg : String
deriving DecidableEq, Repr

/-- The TypeError raised by dereferencing null or undefined. -/
def typeError : JsError := ⟨"TypeError", "null or undefined dereference"⟩

/-- Observable effects of one run of a dispatch wrapper: the list of
user-callback invocations as (callback id, this-context element id)
pairs, whether event.preventDefault and event.stopPropagation were
called, and how many console.error lines were written. -/
structure Effects where
  invoked : List (Nat × Nat)
  prevented : Bool
  stopped : Bool
  logs : Nat
deriving DecidableEq, Repr

/-- Effects of the shared try/catch shape around `callback.call(ctx, ...)`:
the callback is invoked with this-context `ctx`; a return of exactly
`false` or a thrown error triggers preventDefault and stopPropagation;
a thrown error writes `logsOnThrow` console.error lines. -/
def invokeEffects (callback : Nat) (ctx : Nat) (res : CbResult) (logsOnThrow : Nat) : Effects :=
  match res with
  | .ret isF => ⟨[(callback, ctx)], isF, isF, 0⟩
  | .thrown _ _ => ⟨[(callback, ctx)], true, true, logsOnThrow⟩

/-- A DOM node as seen by the delegation matcher: its identity and its
nodeType (1 for Element; document is 9, text is 3).  Only Element nodes
own a `matches` function. -/
structure Node where
  id : Nat
  nodeType : Nat
deriving DecidableEq, Repr

/-- Generic association-list lookup, the image of WeakMap.prototype.get:
returns the value stored under element id `e`, if any. -/
def lookupS {α : Type} : List (Nat × α) → Nat → Option α
  | [], _ => none
  | p :: s, e => if p.1 == e then some p.2 else lookupS s e

/-- Generic association-list update, the image of WeakMap.prototype.set:
replaces the value under key `e` in place when present, otherwise
appends the entry. -/
def storeSet {α : Type} : List (Nat × α) → Nat → α → List (Nat × α)
  | [], e, v => [(e, v)]
  | p :: s, e, v => if p.1 == e then (e, v) :: s else p :: storeSet s e v

/-- Generic association-list removal, the image of WeakMap.prototype.delete. -/
def storeDelete {α : Type} (s : List (Nat × α)) (e : Nat) : List (Nat × α) :=
  s.filter (fun p => p.1 != e)

/-- Auxiliary walk of `splitSpace`, accumulating the current piece in
reverse. -/
def splitSpaceAux : List Char → List Char → List String
  | [], acc => [String.mk acc.reverse]
  | c :: cs, acc =>
    if c = ' ' then String.mk acc.reverse :: splitSpaceAux cs []
    else splitSpaceAux cs (c :: acc)

/-- The JavaScript expression `events.split(" ")`: split on every
occurrence of the single space character (not arbitrary whitespace),
keeping empty pieces, as String.prototype.split does with a one-space
separator string. -/
def splitSpace (s : String) : List String := splitSpaceAux s.data []

/-- Argument form of the `data` parameter of `on`: either a callback
function (the caller used the two-argument form) or a delegation
selector string. -/
inductive OnData where
  | fn (callback : Nat)
  | sel (s : String)
deriving DecidableEq, Repr

/-- Walk from `this[0]` outward through parentNode, the shared body of
`closest` (identical at source lines 731-755 of the v0.2 variant and
2325-2345 of the v0.3 variant): return the first node whose nodeType is
1 and which matches the selector, never walking past the `until` node
(checked after the match test, so the `until` node itself may match). -/
def closest (chain : List Node) (m : String → Nat → Bool) (tag : String)
    (untilId : Option Nat) : Option Node :=
  match chain with
  | [] => none
  | n :: rest =>
    if n.nodeType == 1 && m tag n.id then some n
    else if untilId == some n.id then none
    else closest rest m tag untilId

end DDom

namespace DDom.V3

/-- Behaviour captured by a dispatch wrapper closure in the v0.3
variant: `direct` is `createEventBind.bind(null, element, type, callback)`
(source line 1958), `delegated` is
`createOnBinding.bind(null, this, this[0], hasElements, data, callback)`
(source line 2028). -/
inductive Beh where
  | direct (element : Nat) (type : String)
  | delegated (root : Nat) (hasElements : Bool) (sel : String)
deriving DecidableEq, Repr

/-- A listener record of the v0.3 variant as stored in the handler
cache (source lines 1953-1959 and 2023-2030): event name, capture flag,
once flag, the original callback, and the wrapper closure identity
`hid` together with the data it captured. -/
structure Handle where
  hid : Nat
  event : String
  capture : Bool
  once : Bool
  callback : Nat
  beh : Beh
deriving DecidableEq, Repr

/-- One platform listener registration made by
`element.addEventListener(handle.event, handle.binder, {capture, once})`
(source line 1765).  The platform keys registrations by
(element, event, listener identity, capture); `once`, `callback` and
`beh` are the extra data the registered closure carries. -/
structure Reg where
  elem : Nat
  event : String
  hid : Nat
  capture : Bool
  once : Bool
  callback : Nat
  beh : Beh
deriving DecidableEq, Repr

/-- Whole-system state of the v0.3 variant: the platform listener list,
the `handlerCache` WeakMap, and the supply of fresh closure identities. -/
structure St where
  platform : List Reg
  store : List (Nat × List Handle)
  nextId : Nat
deriving DecidableEq, Repr

/-- The state before any binding has been made. -/
def emptySt : St := ⟨[], [], 0⟩

/-- The platform registration corresponding to a listener record bound
on element `e`. -/
def regOf (e : Nat) (h : Handle) : Reg :=
  ⟨e, h.event, h.hid, h.capture, h.once, h.callback, h.beh⟩

/-- Records stored for element `e`, or the empty list when the cache has
no entry for it. -/
def recordsOf (st : St) (e : Nat) : List Handle :=
  (lookupS st.store e).getD []

/-- The store flattened to (element, record) pairs. -/
def storeFlat (st : St) : List (Nat × Handle) :=
  st.store.flatMap (fun p => p.2.map (fun h => (p.1, h)))

/-- Key equality of platform registrations: the DOM identifies a
listener by (element, event type, listener function, capture flag). -/
def regKeyEq (q r : Reg) : Bool :=
  q.elem == r.elem && q.event == r.event && q.hid == r.hid && q.capture == r.capture

/-- Image of addEventListener: a registration whose key is already
present is ignored, otherwise it is appended. -/
def addListener (regs : List Reg) (r : Reg) : List Reg :=
  if regs.any (fun q => regKeyEq q r) then regs else regs ++ [r]

/-- Image of removeEventListener(ev, listener, cap) on element `e`. -/
def removeListener (regs : List Reg) (e : Nat) (ev : String) (hid : Nat) (cap : Bool) : List Reg :=
  regs.filter (fun q => !(q.elem == e && q.event == ev && q.hid == hid && q.capture == cap))

/-- Does the current platform list still hold a registration with the
key of `r`?  Used by event delivery: a listener removed during dispatch
is not invoked. -/
def containsKey (regs : List Reg) (r : Reg) : Bool :=
  regs.any (fun q => regKeyEq q r)

/-- Fields of a listener record before the fresh wrapper closure is
allocated. -/
structure HandleSpec where
  event : String
  capture : Bool
  once : Bool
  callback : Nat
  beh : Beh
deriving DecidableEq, Repr

/-- handleEventBinding (source lines 1764-1772): allocate the wrapper
closure, register it with the platform
(`addEventListener(event, binder, {capture, once})`) and insert the
record into the handler cache, creating the per-element set on first
use. -/
def handleEventBinding (st : St) (e : Nat) (hs : HandleSpec) : St :=
  let handle : Handle := ⟨st.nextId, hs.event, hs.capture, hs.once, hs.callback, hs.beh⟩
  let platform := addListener st.platform (regOf e handle)
  let store :=
    match lookupS st.store e with
    | some old => storeSet st.store e (old ++ [handle])
    | none => storeSet st.store e [handle]
  ⟨platform, store, st.nextId + 1⟩

/-- eventBind (source lines 1951-1965): for each element of the
collection build one record with `once: once === true` and
`capture: useCapture === true` and a fresh `createEventBind` closure,
and register it.  The event name is used as given, without splitting. -/
def eventBind (st : St) (elems : List Nat) (type : String) (callback : Nat)
    (useCapture : Bool) (once : Bool) : St :=
  elems.foldl (fun s e => handleEventBinding s e ⟨type, useCapture, once, callback, .direct e type⟩) st

/-- eventClick (source lines 1973-1975): `eventBind("click", callback,
useCapture)` with the once argument left undefined, hence false. -/
def eventClick (st : St) (elems : List Nat) (callback : Nat) (useCapture : Bool) : St :=
  eventBind st elems "click" callback useCapture false

/-- eventOnce (source lines 1984-1986): `eventBind(type, callback,
useCapture, true)`. -/
def eventOnce (st : St) (elems : List Nat) (type : String) (callback : Nat)
    (useCapture : Bool) : St :=
  eventBind st elems type callback useCapture true

/-- on (source lines 1996-2036).  Returns none exactly when the source
returns null: zero elements, more than one element, or no callable
callback after the argument forms are distinguished.  On success the
events string is split on the space character, and one record per part
is registered on the single element, with `once: false`, capture forced
for the names "blur" and "focus", and a fresh `createOnBinding` closure
per part. -/
def onBind (st : St) (elems : List Nat) (events : String) (data : OnData)
    (callback : Option Nat) (useCapture : Bool) : Option St :=
  match elems with
  | [] => none
  | _ :: _ :: _ => none
  | [root] =>
    let resolved : Option Nat × Bool :=
      match data with
      | .fn c => (some c, false)
      | .sel _ => (callback, true)
    match resolved.1 with
    | none => none
    | some cb =>
      let sel := match data with | .fn _ => "" | .sel s => s
      some ((splitSpace events).foldl
        (fun s ev =>
          handleEventBinding s root
            ⟨ev, (ev == "blur" || ev == "focus" || useCapture), false, cb,
              .delegated root resolved.2 sel⟩) st)

/-- The removal filter of off (source lines 2050-2051): remove when the
event filter is unset or equal to the record event name, and the
callback filter is unset or reference-equal to the record callback. -/
def offMatch (eventType : Option String) (func : Option Nat) (h : Handle) : Bool :=
  (eventType.isNone || eventType == some h.event) && (func.isNone || func == some h.callback)

/-- Shared removal shape of off (source lines 2049-2061) and of the
deregistration tail of createEventBind (source lines 1739-1748): given
the handler set `hs` of element `e`, deregister every record satisfying
`p` from the platform with `removeEventListener(event, binder, capture)`
and delete it from the set; afterwards delete the whole cache entry
when the set became empty. -/
def removeMatching (st : St) (e : Nat) (hs : List Handle) (p : Handle → Bool) : St :=
  let matched := hs.filter p
  let kept := hs.filter (fun h => !(p h))
  let platform := matched.foldl (fun regs h => removeListener regs e h.event h.hid h.capture) st.platform
  let store := if kept.isEmpty then storeDelete st.store e else storeSet st.store e kept
  ⟨platform, store, st.nextId⟩

/-- off, body for one element (source lines 2045-2063): when the cache
has an entry, remove the records passing the filter. -/
def offElem (st : St) (e : Nat) (eventType : Option String) (func : Option Nat) : St :=
  match lookupS st.store e with
  | none => st
  | some hs => removeMatching st e hs (offMatch eventType func)

/-- off (source lines 2044-2066): apply the per-element body to every
element of the collection. -/
def off (st : St) (elems : List Nat) (eventType : Option String) (func : Option Nat) : St :=
  elems.foldl (fun s e => offElem s e eventType func) st

/-- Result of one run of the createEventBind wrapper: its observable
effects, the error escaping it (if any), and the state it leaves. -/
structure DispatchResult where
  eff : Effects
  escaped : Option JsError
  st : St
deriving DecidableEq, Repr

/-- createEventBind (source lines 1720-1750): invoke the callback with
the bound element as this-context inside try/catch (a `false` return or
a thrown error calls preventDefault and stopPropagation, a thrown error
also writes one console.error line); then read the handler set of the
element and deregister from platform and store every record whose
callback is reference-equal to the bound callback and whose once flag is
set, deleting the whole cache entry when the set became empty.  When the
cache holds no entry for the element the for..of loop dereferences
undefined and a TypeError escapes the wrapper; no removal happens in
that case. -/
def createEventBind (st : St) (element : Nat) (type : String) (callback : Nat)
    (res : CbResult) : DispatchResult :=
  let eff := invokeEffects callback element res 1
  match lookupS st.store element with
  | none => ⟨eff, some typeError, st⟩
  | some hs =>
    ⟨eff, none, removeMatching st element hs (fun h => h.callback == callback && h.once)⟩

/-- createOnBinding (source lines 1783-1844), the delegated dispatch
wrapper.  `target` is event.target and `anc` its parentNode chain.  With
a selector: when the target owns a `matches` function (it is an Element)
and matches, the callback is invoked with the target as this-context;
otherwise `closest(data, delegateTarget)` walks outward from the target,
stopping at the delegation root, and when it finds a node the callback
is invoked with that node as this-context; when it finds nothing the
callback is not invoked.  Without a selector the callback is invoked
with the target.  Every invocation sits in the try/catch shape; a
thrown error writes two console.error lines. -/
def createOnBinding (root : Nat) (hasElements : Bool) (data : String) (callback : Nat)
    (target : Node) (anc : List Node) (m : String → Nat → Bool) (res : CbResult) : Effects :=
  if hasElements then
    if target.nodeType == 1 && m data target.id then
      invokeEffects callback target.id res 2
    else
      match closest (target :: anc) m data (some root) with
      | some n => invokeEffects callback n.id res 2
      | none => ⟨[], false, false, 0⟩
  else
    invokeEffects callback target.id res 2

/-- Deliver the event to one still-registered listener: a platform
registration made with `{once: true}` is auto-removed before the
wrapper runs; then the wrapper closure runs (createEventBind for direct
records, with its deregistration tail; createOnBinding for delegated
records, which never touches the state). -/
def fireOne (s : St) (r : Reg) (target : Node) (anc : List Node)
    (m : String → Nat → Bool) (res : Nat → CbResult) : List (Nat × Nat) × St :=
  let s1 : St :=
    if r.once then ⟨removeListener s.platform r.elem r.event r.hid r.capture, s.store, s.nextId⟩
    else s
  match r.beh with
  | .direct be bt =>
    let d := createEventBind s1 be bt r.callback (res r.callback)
    (d.eff.invoked, d.st)
  | .delegated rt he sel =>
    ((createOnBinding rt he sel r.callback target anc m (res r.callback)).invoked, s1)

/-- Deliver event `ev` at element `e`: the listener list for the
(element, event) pair is snapshotted, and each entry still registered
when its turn comes is fired in registration order (a listener removed
during dispatch is skipped; an error escaping one listener does not
stop the next, the platform reports it and goes on).  Returns all
callback invocations in order and the final state. -/
def dispatch (st : St) (e : Nat) (ev : String) (target : Node) (anc : List Node)
    (m : String → Nat → Bool) (res : Nat → CbResult) : List (Nat × Nat) × St :=
  let snapshot := st.platform.filter (fun r => r.elem == e && r.event == ev)
  snapshot.foldl
    (fun acc r =>
      if containsKey acc.2.platform r then
        let out := fireOne acc.2 r target anc m res
        (acc.1 ++ out.1, out.2)
      else acc)
    ([], st)

end DDom.V3

namespace DDom.V2

/-- Behaviour captured by a dispatch wrapper closure in the v0.2
variant: `bindH` is `eventHandler.bind(element, type, callback)` of
eventBind (source line 215), `clickH` is
`eventHandler.bind(element, callback)` of eventClick (line 254),
`onceH` is `eventHandler.bind(element, callback)` of eventOnce
(line 296) — its removal line reads the `handle` variable shared by the
whole loop, so it carries the identity `sharedHid` that variable holds
after the loop, and `onH` is
`this.onEventHandler.bind(this, this[0], hasElements, data, callback)`
(line 347). -/
inductive Beh where
  | bindH (boundElem : Nat) (type : String)
  | clickH (boundElem : Nat)
  | onceH (boundElem : Nat) (type : String) (sharedHid : Nat)
  | onH (root : Nat) (hasElements : Bool) (sel : String)
deriving DecidableEq, Repr

/-- A listener record of the v0.2 variant (source lines 211-216): event
name, capture flag, original callback and the wrapper closure.  The
v0.2 record has no once flag. -/
structure Handle where
  hid : Nat
  event : String
  capture : Bool
  callback : Nat
deriving DecidableEq, Repr

/-- One platform registration of the v0.2 variant, made by
`element.addEventListener(handle.event, handle.f, handle.capture)`
(source line 441). -/
structure Reg where
  elem : Nat
  event : String
  hid : Nat
  capture : Bool
  callback : Nat
  beh : Beh
deriving DecidableEq, Repr

/-- Whole-system state of the v0.2 variant: platform listener list, the
`eventCache` WeakMap of record arrays, and the fresh-closure counter. -/
structure St where
  platform : List Reg
  store : List (Nat × List Handle)
  nextId : Nat
deriving DecidableEq, Repr

/-- The state before any binding has been made. -/
def emptySt : St := ⟨[], [], 0⟩

/-- Key equality of platform registrations (element, event, listener
identity, capture). -/
def regKeyEq (q r : Reg) : Bool :=
  q.elem == r.elem && q.event == r.event && q.hid == r.hid && q.capture == r.capture

/-- Image of addEventListener for the v0.2 variant. -/
def addListener (regs : List Reg) (r : Reg) : List Reg :=
  if regs.any (fun q => regKeyEq q r) then regs else regs ++ [r]

/-- Image of removeEventListener(ev, listener, cap) on element `e` for
the v0.2 variant. -/
def removeListener (regs : List Reg) (e : Nat) (ev : String) (hid : Nat) (cap : Bool) : List Reg :=
  regs.filter (fun q => !(q.elem == e && q.event == ev && q.hid == hid && q.capture == cap))

/-- Is a registration with the key of `r` still present? -/
def containsKey (regs : List Reg) (r : Reg) : Bool :=
  regs.any (fun q => regKeyEq q r)

/-- eventBindCache (source lines 440-448): register the handle with the
platform and push it onto the cache array of the element, creating the array
on first use.  The `beh` argument is the data captured by the wrapper
closure being registered. -/
def eventBindCache (st : St) (e : Nat) (event : String) (capture : Bool) (callback : Nat)
    (beh : Beh) : St :=
  let hid := st.nextId
  let platform := addListener st.platform ⟨e, event, hid, capture, callback, beh⟩
  let store :=
    match lookupS st.store e with
    | some old => storeSet st.store e (old ++ (⟨hid, event, capture, callback⟩ : Handle) :: [])
    | none => storeSet st.store e [⟨hid, event, capture, callback⟩]
  ⟨platform, store, st.nextId + 1⟩

/-- eventBind of the v0.2 variant (source lines 188-222): one record
per element of the collection, event name taken as given, capture
coerced with `!!useCapture`. -/
def eventBind (st : St) (elems : List Nat) (type : String) (callback : Nat)
    (useCapture : Bool) : St :=
  elems.foldl (fun s e => eventBindCache s e type useCapture callback (.bindH e type)) st

/-- eventClick of the v0.2 variant (source lines 230-261). -/
def eventClick (st : St) (elems : List Nat) (callback : Nat) (useCapture : Bool) : St :=
  elems.foldl (fun s e => eventBindCache s e "click" useCapture callback (.clickH e)) st

/-- eventOnce of the v0.2 variant (source lines 270-303).  Every
wrapper closure created by the loop reads the single `handle` variable
of the enclosing call when it later runs, so each carries the identity
the variable holds after the loop: the handle of the last element. -/
def eventOnce (st : St) (elems : List Nat) (type : String) (callback : Nat)
    (useCapture : Bool) : St :=
  let sharedHid := st.nextId + elems.length - 1
  elems.foldl (fun s e => eventBindCache s e type useCapture callback (.onceH e type sharedHid)) st

/-- The string interpolation `${this.on.caller.toString()}` in the
error paths of the v0.2 `on` (source lines 319, 324, 336): when the
function was invoked from top-level code (or from a strict-mode
function) `this.on.caller` is null and the `.toString()` call throws a
TypeError before anything is logged. -/
def callerToString (caller : Option String) : Except JsError String :=
  match caller with
  | some s => .ok s
  | none => .error typeError

/-- on of the v0.2 variant (source lines 313-354).  `.ok none` models a
logged diagnostic followed by `return null`; `.error` models the
TypeError thrown while building the diagnostic text. -/
def onBind (st : St) (caller : Option String) (elems : List Nat) (events : String)
    (data : OnData) (callback : Option Nat) (useCapture : Bool) : Except JsError (Option St) :=
  match elems with
  | [] => (callerToString caller).map (fun _ => none)
  | _ :: _ :: _ => (callerToString caller).map (fun _ => none)
  | [root] =>
    let resolved : Option Nat × Bool :=
      match data with
      | .fn c => (some c, false)
      | .sel _ => (callback, true)
    match resolved.1 with
    | none => (callerToString caller).map (fun _ => none)
    | some cb =>
      let sel := match data with | .fn _ => "" | .sel s => s
      .ok (some ((splitSpace events).foldl
        (fun s ev =>
          eventBindCache s root ev (ev == "blur" || ev == "focus" || useCapture) cb
            (.onH root resolved.2 sel)) st))

/-- off of the v0.2 variant (source lines 456-482): identical filter to
the v0.3 one; matching records are deregistered with
`removeEventListener(event, f, capture)`, the survivors are written
back with `set`, and the entry is deleted when no record survives. -/
def offMatch (eventType : Option String) (func : Option Nat) (h : Handle) : Bool :=
  (eventType.isNone || eventType == some h.event) && (func.isNone || func == some h.callback)

/-- off of the v0.2 variant, body for one element. -/
def offElem (st : St) (e : Nat) (eventType : Option String) (func : Option Nat) : St :=
  match lookupS st.store e with
  | none => st
  | some hs =>
    let matched := hs.filter (offMatch eventType func)
    let keep := hs.filter (fun h => !(offMatch eventType func h))
    let platform := matched.foldl (fun regs h => removeListener regs e h.event h.hid h.capture) st.platform
    let store := if keep.length > 0 then storeSet st.store e keep else storeDelete st.store e
    ⟨platform, store, st.nextId⟩

/-- off of the v0.2 variant over the whole collection. -/
def off (st : St) (elems : List Nat) (eventType : Option String) (func : Option Nat) : St :=
  elems.foldl (fun s e => offElem s e eventType func) st

/-- The event object as seen by the v0.2 eventBind wrapper: whether it
is a CustomEvent, and its detail payload (none models a null detail, as
produced by a CustomEvent constructed without arguments). -/
structure Ev where
  isCustom : Bool
  detail : Option (List Nat)
deriving DecidableEq, Repr

/-- Result of one run of a v0.2 dispatch wrapper: observable effects
and the error escaping it, if any. -/
structure DispatchOut where
  eff : Effects
  escaped : Option JsError
deriving DecidableEq, Repr

/-- The eventBind dispatch wrapper of the v0.2 variant (source lines
192-206): invoke the callback with the bound element as this-context;
a `false` return calls preventDefault and stopPropagation; on a thrown
error the catch block first rebuilds the message prefix with
`(event instanceof CustomEvent) ? type + " / " + event.detail[0] : type`
— when the event is a CustomEvent whose detail is null, indexing null
throws a TypeError that escapes the wrapper before anything is logged
and before preventDefault or stopPropagation run; otherwise one line is
logged and the event is cancelled. -/
def eventHandler (type : String) (callback : Nat) (thisElem : Nat) (ev : Ev)
    (res : CbResult) : DispatchOut :=
  match res with
  | .ret isF => ⟨⟨[(callback, thisElem)], isF, isF, 0⟩, none⟩
  | .thrown _ _ =>
    if ev.isCustom then
      match ev.detail with
      | none => ⟨⟨[(callback, thisElem)], false, false, 0⟩, some typeError⟩
      | some _ => ⟨⟨[(callback, thisElem)], true, true, 1⟩, none⟩
    else ⟨⟨[(callback, thisElem)], true, true, 1⟩, none⟩

/-- Result of the v0.2 onEventHandler: observable effects plus the id
wrapped by the `elements.currentTarget` object handed to the callback
(none when the callback was not invoked). -/
structure OnOut where
  eff : Effects
  currentTargetId : Option Nat
deriving DecidableEq, Repr

/-- onEventHandler of the v0.2 variant (source lines 365-428).  With a
selector: a directly matching target is invoked with the target as
this-context and currentTarget; otherwise `closest(data, delegateTarget)`
finds the nearest matching node, and when it finds one the callback is
invoked with `event.target` as this-context - not the matched node -
while `elements.currentTarget` wraps the matched node; no match, no
invocation.  Without a selector the callback is invoked with the
target.  Thrown errors log one line and cancel the event. -/
def onEventHandler (root : Nat) (hasElements : Bool) (data : String) (callback : Nat)
    (target : Node) (anc : List Node) (m : String → Nat → Bool) (res : CbResult) : OnOut :=
  if hasElements then
    if target.nodeType == 1 && m data target.id then
      ⟨invokeEffects callback target.id res 1, some target.id⟩
    else
      match closest (target :: anc) m data (some root) with
      | some n => ⟨invokeEffects callback target.id res 1, some n.id⟩
      | none => ⟨⟨[], false, false, 0⟩, none⟩
  else ⟨invokeEffects callback target.id res 1, some target.id⟩

/-- Deliver the event to one still-registered v0.2 listener.  Only the
eventOnce wrapper touches the state: after its try/catch it runs
`this.removeEventListener(type, handle.f)` — `handle` is the shared
variable (identity `sharedHid`) and the capture argument is omitted, so
the platform looks for a bubble-phase registration. -/
def fireOne (s : St) (r : Reg) (evi : Ev) (target : Node) (anc : List Node)
    (m : String → Nat → Bool) (res : Nat → CbResult) : List (Nat × Nat) × St :=
  match r.beh with
  | .bindH be bt => ((eventHandler bt r.callback be evi (res r.callback)).eff.invoked, s)
  | .clickH be => ((invokeEffects r.callback be (res r.callback) 1).invoked, s)
  | .onceH be bt sharedHid =>
    ((invokeEffects r.callback be (res r.callback) 1).invoked,
      ⟨removeListener s.platform be bt sharedHid false, s.store, s.nextId⟩)
  | .onH rt he sel =>
    ((onEventHandler rt he sel r.callback target anc m (res r.callback)).eff.invoked, s)

/-- Deliver event `ev` at element `e` in the v0.2 variant, in
registration order, skipping listeners removed during dispatch. -/
def dispatch (st : St) (e : Nat) (ev : String) (evi : Ev) (target : Node) (anc : List Node)
    (m : String → Nat → Bool) (res : Nat → CbResult) : List (Nat × Nat) × St :=
  let snapshot := st.platform.filter (fun r => r.elem == e && r.event == ev)
  snapshot.foldl
    (fun acc r =>
      if containsKey acc.2.platform r then
        let out := fireOne acc.2 r evi target anc m res
        (acc.1 ++ out.1, out.2)
      else acc)
    ([], st)

end DDom.V2

namespace DDom

/-- A JavaScript value handed to the DDom constructor: undefined, null,
a string (element creation), a platform node (anything with a truthy
nodeType), an existing DDom instance identified by reference, an
HTMLCollection or NodeList of node ids, or the window object. -/
inductive DVal where
  | undef
  | nullv
  | str (s : String)
  | nodeV (id : Nat) (nodeType : Nat)
  | ddomObj (r : Nat)
  | coll (ids : List Nat)
  | windowV
deriving DecidableEq, Repr

/-- What `new DDom(...)` evaluates to: the very object passed in (the
constructor returned its argument, so `new` yields that object and not
the freshly allocated one), or a fresh instance with the given element
slots. -/
inductive ConstructResult where
  | existing (r : Nat)
  | fresh (slots : List DVal)
deriving DecidableEq, Repr

/-- The DDom constructor of the v0.3 variant (source lines 1686-1712).
`ce` is the element-creation helper `this.ce` (it receives the string
and the options; the options do not affect which object is returned, so
they are elided here).  A string builds one created element; a value
with a nodeType becomes slot 0; an existing DDom instance is returned
as is; an HTMLCollection or NodeList (no nodeType, not a DDom) fills
the slots; window becomes slot 0; undefined, null and the empty string
give an empty instance. -/
def DDomNew03 (ce : String → Nat) (element : DVal) : ConstructResult :=
  match element with
  | .undef => .fresh []
  | .nullv => .fresh []
  | .str s => if s == "" then .fresh [] else .fresh [.nodeV (ce s) 1]
  | .nodeV id t => .fresh [.nodeV id t]
  | .ddomObj r => .existing r
  | .coll ids => .fresh (ids.map (fun i => .nodeV i 1))
  | .windowV => .fresh [.windowV]

/-- The DDom constructor of the v0.2 variant (source lines 59-87); the
branch structure is the same as in v0.3. -/
def DDomNew02 (ce : String → Nat) (element : DVal) : ConstructResult :=
  match element with
  | .undef => .fresh []
  | .nullv => .fresh []
  | .str s => if s == "" then .fresh [] else .fresh [.nodeV (ce s) 1]
  | .nodeV id t => .fresh [.nodeV id t]
  | .ddomObj r => .existing r
  | .coll ids => .fresh (ids.map (fun i => .nodeV i 1))
  | .windowV => .fresh [.windowV]

/-- The exported factory `$DDom` of the v0.3 variant (source lines
3183-3185): `new DDom(selector, options)`. -/
def dollarDDom03 (ce : String → Nat) (selector : DVal) : ConstructResult :=
  DDomNew03 ce selector

/-- The CustomEventInit dictionary literal built by trigger (source
lines 493 and 2077): `{bubbles: true, cancellable: true, detail: args}`.
Each recognised dictionary member is an Option: none means the member
is absent from the literal.  The misspelled key `cancellable` is kept
as its own field; the constructor never reads it. -/
structure CEDict where
  bubbles : Option Bool
  cancelable : Option Bool
  cancellable : Option Bool
  detail : Option (List Nat)
deriving DecidableEq, Repr

/-- A synthesized custom event: type, bubbles and cancelable flags,
detail payload (none models null) and the extra `eventName` expando
property trigger assigns. -/
structure SynthEvent where
  evType : String
  bubbles : Bool
  cancelable : Bool
  detail : Option (List Nat)
  eventNameProp : String
deriving DecidableEq, Repr

/-- The CustomEvent constructor: per WebIDL, an absent `bubbles` or
`cancelable` member defaults to false and an absent `detail` member
defaults to null.  The unknown key `cancellable` is ignored. -/
def customEventNew (t : String) (d : CEDict) : SynthEvent :=
  ⟨t, d.bubbles.getD false, d.cancelable.getD false, d.detail, ""⟩

/-- The legacy path `document.createEvent("CustomEvent")` followed by
`initCustomEvent(event, canBubble, cancelable, detail)`. -/
def initCustomEvent (t : String) (canBubble : Bool) (cancelable : Bool)
    (detail : Option (List Nat)) : SynthEvent :=
  ⟨t, canBubble, cancelable, detail, ""⟩

/-- Event synthesis of trigger in the v0.3 variant (source lines
2073-2086): when the CustomEvent constructor exists it is called with
the literal `{bubbles: true, cancellable: true, detail: args}`,
otherwise `initCustomEvent(event, true, true, args)` runs; either way
`eventObject.eventName = event` is assigned.  The loop then dispatches
this one object at every element of the collection. -/
def triggerEvent03 (customEventIsFunction : Bool) (event : String)
    (args : Option (List Nat)) : SynthEvent :=
  if customEventIsFunction then
    let e := customEventNew event ⟨some true, none, some true, args⟩
    ⟨e.evType, e.bubbles, e.cancelable, e.detail, event⟩
  else
    let e := initCustomEvent event true true args
    ⟨e.evType, e.bubbles, e.cancelable, e.detail, event⟩

/-- Event synthesis of trigger in the v0.2 variant (source lines
489-505); the code is the same as in v0.3. -/
def triggerEvent02 (customEventIsFunction : Bool) (event : String)
    (args : Option (List Nat)) : SynthEvent :=
  if customEventIsFunction then
    let e := customEventNew event ⟨some true, none, some true, args⟩
    ⟨e.evType, e.bubbles, e.cancelable, e.detail, event⟩
  else
    let e := initCustomEvent event true true args
    ⟨e.evType, e.bubbles, e.cancelable, e.detail, event⟩

/-- Platform semantics of preventDefault: the event ends up with
defaultPrevented true exactly when preventDefault was called on a
cancelable event. -/
def appliedDefaultPrevented (ev : SynthEvent) (preventDefaultCalled : Bool) : Bool :=
  preventDefaultCalled && ev.cancelable

/-- Modelled from the claim wording of C2: the nodes visited when
walking outward from the target, stopping at (and including) the
delegation root. -/
def chainUpToRoot (chain : List Node) (root : Nat) : List Node :=
  match chain with
  | [] => []
  | n :: rest => if n.id == root then [n] else n :: chainUpToRoot rest root

/-- Modelled from the claim wording of C2: the this-context the
callback must be invoked with — the target itself when the selector
matches it directly, otherwise the nearest matching node walking
outward and stopping at the root, and none (no invocation) when
neither matches. -/
def claimDelegation (m : String → Nat → Bool) (sel : String) (root : Nat)
    (target : Node) (anc : List Node) : Option Nat :=
  if m sel target.id then some target.id
  else ((chainUpToRoot (target :: anc) root).find? (fun n => m sel n.id)).map (fun n => n.id)

end DDom

namespace DDom.V3

/-- One public operation of the v0.3 event subsystem. -/
inductive Op where
  | bindE (elems : List Nat) (type : String) (callback : Nat) (useCapture : Bool) (once : Bool)
  | clickE (elems : List Nat) (callback : Nat) (useCapture : Bool)
  | onceE (elems : List Nat) (type : String) (callback : Nat) (useCapture : Bool)
  | onE (elems : List Nat) (events : String) (data : OnData) (callback : Option Nat) (useCapture : Bool)
  | offE (elems : List Nat) (eventType : Option String) (func : Option Nat)
  | dispatchE (e : Nat) (ev : String) (target : Node) (anc : List Node)
      (m : String → Nat → Bool) (res : Nat → CbResult)

/-- State transition of one operation. -/
def Op.step (op : Op) (st : St) : St :=
  match op with
  | .bindE elems type cb uc once => eventBind st elems type cb uc once
  | .clickE elems cb uc => eventClick st elems cb uc
  | .onceE elems type cb uc => eventOnce st elems type cb uc
  | .onE elems events data cb uc => (onBind st elems events data cb uc).getD st
  | .offE elems evT f => off st elems evT f
  | .dispatchE e ev target anc m res => (dispatch st e ev target anc m res).2

/-- The state reached by a sequence of operations from the empty
state. -/
def run (ops : List Op) : St :=
  ops.foldl (fun s op => op.step s) emptySt

/-- Structural facts every record satisfies by construction: a
createEventBind closure is bound to the element the record is stored
under, and a createOnBinding record (made by `on`) always has
`once: false`. -/
def behOk (e : Nat) (h : Handle) : Prop :=
  (∀ be t, h.beh = .direct be t → be = e) ∧
  (∀ rt hl sl, h.beh = .delegated rt hl sl → h.once = false)

/-- The store/platform invariant of the v0.3 variant: dispatch closure
identities are unique on the platform and within every cache entry and
lie below the freshness counter; a registration is on the platform if
and only if the corresponding record sits in the cache entry of its
element; and every record satisfies `behOk`. -/
def Inv (st : St) : Prop :=
  ((st.platform.map (fun r => r.hid)).Nodup ∧
    ∀ r ∈ st.platform, r.hid < st.nextId) ∧
  (∀ x : Nat, ((recordsOf st x).map Handle.hid).Nodup ∧
    ∀ h ∈ recordsOf st x, h.hid < st.nextId ∧ behOk x h) ∧
  (∀ r : Reg, r ∈ st.platform ↔ ∃ h ∈ recordsOf st r.elem, r = regOf r.elem h)

end DDom.V3

namespace DDom.V3

/-- The records the success path of `on` creates, in loop order: one
per event-name part, closure identities counting up from `base`,
capture forced for "blur" and "focus", once false, all sharing the same
delegation parameters. -/
def mkOnHandles (base : Nat) (root : Nat) (hasEl : Bool) (sel : String) (cb : Nat)
    (uc : Bool) : List String → List Handle
  | [] => []
  | ev :: rest =>
    ⟨base, ev, (ev == "blur" || ev == "focus" || uc), false, cb, .delegated root hasEl sel⟩ ::
      mkOnHandles (base + 1) root hasEl sel cb uc rest

end DDom.V3

namespace DDom

theorem lookupS_storeSet_self {α : Type} (s : List (Nat × α)) (e : Nat) (v : α) :
    lookupS (storeSet s e v) e = some v := by
  induction s with
  | nil => simp [storeSet, lookupS]
  | cons p s ih =>
    by_cases hp : p.1 = e
    · simp [storeSet, lookupS, hp]
    · simp [storeSet, lookupS, hp, ih]

theorem lookupS_storeSet_ne {α : Type} (s : List (Nat × α)) (e e2 : Nat) (v : α)
    (hne : e2 ≠ e) : lookupS (storeSet s e v) e2 = lookupS s e2 := by
  have hne' : e ≠ e2 := Ne.symm hne
  induction s with
  | nil => simp [storeSet, lookupS, hne']
  | cons p s ih =>
    by_cases hp : p.1 = e
    · subst hp
      simp [storeSet, lookupS, hne']
    · by_cases hq : p.1 = e2
      · simp [storeSet, lookupS, hp, hq, hne]
      · simp [storeSet, lookupS, hp, hq, ih]

theorem lookupS_storeDelete_self {α : Type} (s : List (Nat × α)) (e : Nat) :
    lookupS (storeDelete s e) e = none := by
  induction s with
  | nil => simp [storeDelete, lookupS]
  | cons p s ih =>
    by_cases hp : p.1 = e
    · simpa [storeDelete, hp] using ih
    · simpa [storeDelete, lookupS, hp] using ih

theorem lookupS_storeDelete_ne {α : Type} (s : List (Nat × α)) (e e2 : Nat)
    (hne : e2 ≠ e) : lookupS (storeDelete s e) e2 = lookupS s e2 := by
  have hne' : e ≠ e2 := Ne.symm hne
  induction s with
  | nil => simp [storeDelete, lookupS]
  | cons p s ih =>
    by_cases hp : p.1 = e
    · subst hp
      simpa [storeDelete, lookupS, hne', List.filter_cons] using ih
    · by_cases hq : p.1 = e2
      · simp [storeDelete, lookupS, List.filter_cons, hp, hq, hne]
      · simpa [storeDelete, lookupS, List.filter_cons, hp, hq] using ih

theorem lookupS_none_iff {α : Type} (s : List (Nat × α)) (e : Nat) :
    lookupS s e = none ↔ ∀ p ∈ s, p.1 ≠ e := by
  induction s with
  | nil => simp [lookupS]
  | cons p s ih =>
    by_cases hp : p.1 = e
    · simp [lookupS, hp]
    · simp [lookupS, hp, ih]

/-- C9: constructing a DDom from an existing DDom instance, through
`new DDom(d)` of either variant or through the `$DDom` factory, yields
the instance `d` itself — the constructor hits its
`element instanceof DDom` branch and returns its argument — so wrapping
is idempotent and mutations through the result are mutations of the
original object. -/
theorem C9_wrap_returns_same_instance : ∀ (ce : String → Nat) (d : Nat),
    DDomNew03 ce (.ddomObj d) = .existing d ∧
    DDomNew02 ce (.ddomObj d) = .existing d ∧
    dollarDDom03 ce (.ddomObj d) = .existing d :=
  fun _ _ => ⟨rfl, rfl, rfl⟩

/-- C10 counterexample: when the CustomEvent constructor is not a
function, trigger (both variants) falls back to
`initCustomEvent(event, true, true, args)`, whose third argument makes
the synthesized event cancelable — refuting the claim that every event
synthesized by trigger is not cancelable. -/
theorem C10_counterexample :
    (triggerEvent03 false "change" none).cancelable = true ∧
    (triggerEvent02 false "change" none).cancelable = true :=
  ⟨rfl, rfl⟩

/-- C10 (amended): whenever the CustomEvent constructor is available,
the event synthesized by trigger of either variant bubbles but is not
cancelable, because the init literal spells the key `cancellable` and
the constructor therefore sees no `cancelable` member and keeps its
false default; consequently preventDefault never marks such an event
defaultPrevented, so a listener returning false cannot suppress its
default action.  In the legacy `document.createEvent` fallback the
event is cancelable. -/
theorem C10_trigger_not_cancelable : ∀ (event : String) (args : Option (List Nat)) (b : Bool),
    (triggerEvent03 true event args).bubbles = true ∧
    (triggerEvent03 true event args).cancelable = false ∧
    appliedDefaultPrevented (triggerEvent03 true event args) b = false ∧
    (triggerEvent02 true event args).bubbles = true ∧
    (triggerEvent02 true event args).cancelable = false ∧
    appliedDefaultPrevented (triggerEvent02 true event args) b = false := by
  intro event args b
  refine ⟨rfl, rfl, ?_, rfl, rfl, ?_⟩ <;>
    simp [appliedDefaultPrevented, triggerEvent03, triggerEvent02, customEventNew]

/-- C7: the v0.3 `on` reports the zero-element, multi-element and
missing-callback cases by returning null after a logged diagnostic, and
registers nothing; but in the v0.2 variant the diagnostic itself
interpolates `this.on.caller.toString()`, and when there is no caller
function (top-level invocation, or a strict-mode caller) that
dereference throws a TypeError instead, so the operation does throw.
With a caller available the v0.2 error path does return null. -/
theorem C7_on_usage_errors :
    V3.onBind V3.emptySt [] "click" (.sel "a.foo") (some 7) false = none ∧
    V3.onBind V3.emptySt [1, 2] "click" (.sel "a.foo") (some 7) false = none ∧
    V3.onBind V3.emptySt [1] "click" (.sel "a.foo") none false = none ∧
    V2.onBind V2.emptySt none [] "click" (.sel "a.foo") (some 7) false = .error typeError ∧
    V2.onBind V2.emptySt none [1, 2] "click" (.sel "a.foo") (some 7) false = .error typeError ∧
    V2.onBind V2.emptySt none [1] "click" (.sel "a.foo") none false = .error typeError ∧
    V2.onBind V2.emptySt (some "function cb()") [] "click" (.sel "a.foo") (some 7) false = .ok none :=
  ⟨rfl, rfl, rfl, rfl, rfl, rfl, rfl⟩

/-- C3: evaluation of the v0.2 eventBind dispatch wrapper at the
failing input — the callback throws while a CustomEvent with a null
detail (a CustomEvent constructed without arguments, as
`trigger(event)` produces) is being dispatched.  The catch block
evaluates `event.detail[0]` before logging, so a TypeError escapes the
wrapper: nothing is logged and neither preventDefault nor
stopPropagation is called, against the claim that the wrapper cancels
the event, logs, and never lets an error out.  On every other input
the claimed containment does hold, as the remaining conjuncts evaluate:
the same v0.2 wrapper on a plain event, and the v0.3 createEventBind
wrapper (here `.ret true` encodes a callback returning exactly the
boolean false, `.ret false` any other return), log and cancel on a
throw, cancel on a false return, and let no error escape. -/
theorem C3_wrapper_escapes_at_null_detail :
    (V2.eventHandler "submit" 7 5 ⟨true, none⟩ (.thrown "Error" "boom") =
      ⟨⟨[(7, 5)], false, false, 0⟩, some typeError⟩) ∧
    (V2.eventHandler "submit" 7 5 ⟨false, none⟩ (.thrown "Error" "boom") =
      ⟨⟨[(7, 5)], true, true, 1⟩, none⟩) ∧
    (V2.eventHandler "submit" 7 5 ⟨true, some []⟩ (.thrown "Error" "boom") =
      ⟨⟨[(7, 5)], true, true, 1⟩, none⟩) ∧
    (V3.createEventBind (V3.eventBind V3.emptySt [5] "submit" 7 false false) 5 "submit" 7
        (.thrown "Error" "boom") =
      ⟨⟨[(7, 5)], true, true, 1⟩, none,
        ⟨[⟨5, "submit", 0, false, false, 7, .direct 5 "submit"⟩],
          [(5, [⟨0, "submit", false, false, 7, .direct 5 "submit"⟩])], 1⟩⟩) ∧
    (V3.createEventBind (V3.eventBind V3.emptySt [5] "submit" 7 false false) 5 "submit" 7
        (.ret true) =
      ⟨⟨[(7, 5)], true, true, 0⟩, none,
        ⟨[⟨5, "submit", 0, false, false, 7, .direct 5 "submit"⟩],
          [(5, [⟨0, "submit", false, false, 7, .direct 5 "submit"⟩])], 1⟩⟩) ∧
    (V3.createEventBind (V3.eventBind V3.emptySt [5] "submit" 7 false false) 5 "submit" 7
        (.ret false) =
      ⟨⟨[(7, 5)], false, false, 0⟩, none,
        ⟨[⟨5, "submit", 0, false, false, 7, .direct 5 "submit"⟩],
          [(5, [⟨0, "submit", false, false, 7, .direct 5 "submit"⟩])], 1⟩⟩) :=
  ⟨rfl, rfl, rfl, rfl, rfl, rfl⟩

end DDom

namespace DDom

/-- C1 counterexample: in the v0.2 variant, eventOnce on element 5 with
callback 7 (bubble phase) followed by one trigger of "click" leaves the
listener record in the eventCache store — the wrapper only runs
`this.removeEventListener(type, handle.f)` and never touches the store —
refuting the part of the claim that says the record is deregistered
from both the platform and the store and that the store holds no record
for the element.  With a capture-phase binding even the exactly-once
part fails: the removal call omits the capture flag, the platform keeps
the listener, and the second trigger invokes the callback again. -/
theorem C1_counterexample :
    (V2.dispatch (V2.eventOnce V2.emptySt [5] "click" 7 false) 5 "click"
        ⟨false, none⟩ ⟨5, 1⟩ [] (fun _ _ => false) (fun _ => .ret false)).2.store =
      [(5, [⟨0, "click", false, 7⟩])] ∧
    (V2.dispatch
        (V2.dispatch (V2.eventOnce V2.emptySt [5] "click" 7 true) 5 "click"
          ⟨false, none⟩ ⟨5, 1⟩ [] (fun _ _ => false) (fun _ => .ret false)).2
        5 "click" ⟨false, none⟩ ⟨5, 1⟩ [] (fun _ _ => false) (fun _ => .ret false)).1 =
      [(7, 5)] :=
  ⟨rfl, rfl⟩

/-- C2 counterexample: delegated binding in the v0.2 variant with
selector matching only node 2; the event target is node 1 whose
ancestor chain is [2, 3] with delegation root 3.  The nearest matching
ancestor is node 2 and `elements.currentTarget` wraps it, but the
callback is invoked with this-context node 1 — `callback.call(
event.target, ...)` — not with the matched ancestor, refuting the
claim that the callback is invoked with the ancestor as context. -/
theorem C2_counterexample :
    V2.onEventHandler 3 true "a.foo" 7 ⟨1, 1⟩ [⟨2, 1⟩, ⟨3, 1⟩]
        (fun _ i => i == 2) (.ret false) =
      ⟨⟨[(7, 1)], false, false, 0⟩, some 2⟩ ∧ (1 : Nat) ≠ 2 :=
  ⟨rfl, by decide⟩

/-- C5 counterexample: `eventBind("focus", cb, false)` in the v0.3
variant stores and registers a listener record whose capture flag is
false — `eventBind` takes `useCapture === true` verbatim and never
forces capture for "focus" or "blur" — refuting the claim that every
binding operation of the Binder forces capture true for these event
names. -/
theorem C5_counterexample :
    lookupS (V3.eventBind V3.emptySt [4] "focus" 9 false false).store 4 =
      some [⟨0, "focus", false, false, 9, .direct 4 "focus"⟩] ∧
    (V3.eventBind V3.emptySt [4] "focus" 9 false false).platform =
      [⟨4, "focus", 0, false, false, 9, .direct 4 "focus"⟩] :=
  ⟨rfl, rfl⟩

/-- C6 counterexample: in the v0.2 variant, after eventOnce on element
5 and one trigger the platform holds no listener but the eventCache
still holds the record, refuting the between-operations invariant that
a dispatch wrapper is registered with the platform if and only if a
corresponding record exists in the store. -/
theorem C6_counterexample :
    (V2.dispatch (V2.eventOnce V2.emptySt [5] "click" 7 false) 5 "click"
        ⟨false, none⟩ ⟨5, 1⟩ [] (fun _ _ => false) (fun _ => .ret false)).2.platform = [] ∧
    lookupS (V2.dispatch (V2.eventOnce V2.emptySt [5] "click" 7 false) 5 "click"
        ⟨false, none⟩ ⟨5, 1⟩ [] (fun _ _ => false) (fun _ => .ret false)).2.store 5 =
      some [⟨0, "click", false, 7⟩] :=
  ⟨rfl, rfl⟩

/-- C8 counterexample: `eventBind("click keyup", cb)` in the v0.3
variant does not split the event-name argument at all: it creates one
single record whose event name is the literal string "click keyup"
(where the claim demands one record per whitespace-separated name,
here two); and even `on` splits only on the space character, so a
tab-separated argument yields one record carrying the tab. -/
theorem C8_counterexample :
    (V3.recordsOf (V3.eventBind V3.emptySt [4] "click keyup" 9 false false) 4).map
        V3.Handle.event = ["click keyup"] ∧
    splitSpace "click keyup" = ["click", "keyup"] ∧
    (V3.onBind V3.emptySt [4] "click\tkeyup" (.fn 9) none false).map
        (fun st => (V3.recordsOf st 4).map V3.Handle.event) =
      some ["click\tkeyup"] :=
  ⟨rfl, rfl, rfl⟩

end DDom

namespace DDom

theorem invokeEffects_invoked (callback ctx : Nat) (res : CbResult) (k : Nat) :
    (invokeEffects callback ctx res k).invoked = [(callback, ctx)] := by
  cases res <;> rfl

theorem head_mem_chainUpToRoot (n : Node) (rest : List Node) (root : Nat) :
    n ∈ chainUpToRoot (n :: rest) root := by
  by_cases h : n.id = root <;> simp [chainUpToRoot, h]

theorem closest_eq_chain_find (chain : List Node) (m : String → Nat → Bool) (sel : String)
    (root : Nat) (hel : ∀ n ∈ chainUpToRoot chain root, n.nodeType = 1) :
    closest chain m sel (some root) = (chainUpToRoot chain root).find? (fun n => m sel n.id) := by
  induction chain with
  | nil => simp [closest, chainUpToRoot]
  | cons n rest ih =>
    by_cases hr : n.id = root
    · have hn : n.nodeType = 1 := hel n (head_mem_chainUpToRoot n rest root)
      by_cases hm : m sel n.id
      · simp [closest, chainUpToRoot, hr, hn, hm, List.find?]
      · simp [closest, chainUpToRoot, hr, hn, hm, List.find?]
    · have hcu : chainUpToRoot (n :: rest) root = n :: chainUpToRoot rest root := by
        simp [chainUpToRoot, hr]
      have hn : n.nodeType = 1 := hel n (head_mem_chainUpToRoot n rest root)
      by_cases hm : m sel n.id
      · simp [closest, hcu, hn, hm, List.find?]
      · have ih' := ih (fun x hx => hel x (by rw [hcu]; exact List.mem_cons_of_mem _ hx))
        simp [closest, hcu, hn, hm, List.find?, Ne.symm hr, ih']

/-- C2 (amended): at dispatch time of a delegated binding, both
variants select the effective node exactly as the claim describes — the
target itself when the selector matches it directly (taking precedence
over the ancestor search), otherwise the nearest matching ancestor
walking outward and stopping at (and including) the delegation root,
and no invocation when neither matches (`claimDelegation` is that
wording verbatim).  The v0.3 createOnBinding invokes the callback with
the selected node as this-context, as claimed; the v0.2 onEventHandler
exposes the selected node only as `elements.currentTarget` and, in the
ancestor branch, invokes the callback with the original target as
this-context instead.  The hypothesis says every node walked up to the
root is an Element (nodeType 1, hence owning `matches`), which holds of
any real ancestor chain between a target and a delegation root. -/
theorem C2_delegation_matching (root cb : Nat) (sel : String) (target : Node)
    (anc : List Node) (m : String → Nat → Bool) (res : CbResult)
    (hel : ∀ n ∈ chainUpToRoot (target :: anc) root, n.nodeType = 1) :
    ((V3.createOnBinding root true sel cb target anc m res).invoked =
      match claimDelegation m sel root target anc with
      | some ctx => [(cb, ctx)]
      | none => []) ∧
    ((V2.onEventHandler root true sel cb target anc m res).currentTargetId =
      claimDelegation m sel root target anc) ∧
    ((V2.onEventHandler root true sel cb target anc m res).eff.invoked =
      match claimDelegation m sel root target anc with
      | some _ => [(cb, target.id)]
      | none => []) := by
  have htarget : target.nodeType = 1 := hel target (head_mem_chainUpToRoot target anc root)
  have hclosest := closest_eq_chain_find (target :: anc) m sel root hel
  by_cases hm : m sel target.id
  · simp [V3.createOnBinding, V2.onEventHandler, claimDelegation, htarget, hm,
      invokeEffects_invoked]
  · simp only [V3.createOnBinding, V2.onEventHandler, claimDelegation, htarget, hm,
      beq_self_eq_true, Bool.true_and, if_false, hclosest]
    cases hf : (chainUpToRoot (target :: anc) root).find? (fun n => m sel n.id) with
    | none => simp
    | some n => simp [invokeEffects_invoked]

end DDom

namespace DDom

/-- Witness for C2 at a concrete chain: target 1 (non-matching), its
parent 2 (matching), root 3; the v0.3 wrapper invokes the callback
with the matched ancestor 2 as context. -/
theorem C2_delegation_matching_witness :
    (∀ n ∈ chainUpToRoot [(⟨1, 1⟩ : Node), ⟨2, 1⟩, ⟨3, 1⟩] 3, n.nodeType = 1) ∧
    (V3.createOnBinding 3 true "a.foo" 7 ⟨1, 1⟩ [⟨2, 1⟩, ⟨3, 1⟩]
        (fun _ i => i == 2) (.ret false)).invoked = [(7, 2)] :=
  ⟨by decide, by
    have h := (C2_delegation_matching 3 7 "a.foo" ⟨1, 1⟩ [⟨2, 1⟩, ⟨3, 1⟩]
      (fun _ i => i == 2) (.ret false) (by decide)).1
    simpa using h⟩

end DDom

namespace DDom.V3

theorem nextId_handleEventBinding (st : St) (e : Nat) (hs : HandleSpec) :
    (handleEventBinding st e hs).nextId = st.nextId + 1 := by
  unfold handleEventBinding
  cases lookupS st.store e <;> rfl

theorem records_handleEventBinding_self (st : St) (e : Nat) (hs : HandleSpec) :
    lookupS (handleEventBinding st e hs).store e =
      some (recordsOf st e ++ [⟨st.nextId, hs.event, hs.capture, hs.once, hs.callback, hs.beh⟩]) := by
  unfold handleEventBinding recordsOf
  cases hl : lookupS st.store e with
  | none => simp [hl, lookupS_storeSet_self]
  | some old => simp [hl, lookupS_storeSet_self]

theorem records_handleEventBinding_ne (st : St) (e e2 : Nat) (hs : HandleSpec)
    (hne : e2 ≠ e) :
    lookupS (handleEventBinding st e hs).store e2 = lookupS st.store e2 := by
  unfold handleEventBinding
  cases hl : lookupS st.store e <;> simp [lookupS_storeSet_ne _ _ _ _ hne]

theorem mkOnHandles_events (parts : List String) (base root : Nat) (hasEl : Bool)
    (sel : String) (cb : Nat) (uc : Bool) :
    (mkOnHandles base root hasEl sel cb uc parts).map Handle.event = parts := by
  induction parts generalizing base with
  | nil => rfl
  | cons ev rest ih => simp [mkOnHandles, ih]

theorem mkOnHandles_capture (parts : List String) (base root : Nat) (hasEl : Bool)
    (sel : String) (cb : Nat) (uc : Bool) :
    ∀ h ∈ mkOnHandles base root hasEl sel cb uc parts,
      h.capture = (h.event == "blur" || h.event == "focus" || uc) := by
  induction parts generalizing base with
  | nil => simp [mkOnHandles]
  | cons ev rest ih =>
    intro h hh
    rcases List.mem_cons.mp hh with h1 | h2
    · subst h1; rfl
    · exact ih (base + 1) h h2

theorem mkOnHandles_shared (parts : List String) (base root : Nat) (hasEl : Bool)
    (sel : String) (cb : Nat) (uc : Bool) :
    ∀ h ∈ mkOnHandles base root hasEl sel cb uc parts,
      h.callback = cb ∧ h.beh = .delegated root hasEl sel ∧ h.once = false := by
  induction parts generalizing base with
  | nil => simp [mkOnHandles]
  | cons ev rest ih =>
    intro h hh
    rcases List.mem_cons.mp hh with h1 | h2
    · subst h1; exact ⟨rfl, rfl, rfl⟩
    · exact ih (base + 1) h h2

theorem onBind_fold_records (parts : List String) (st : St) (root : Nat) (hasEl : Bool)
    (sel : String) (cb : Nat) (uc : Bool) (hne : parts ≠ []) :
    lookupS ((parts.foldl (fun s ev => handleEventBinding s root
        ⟨ev, (ev == "blur" || ev == "focus" || uc), false, cb, .delegated root hasEl sel⟩) st)).store root =
      some (recordsOf st root ++ mkOnHandles st.nextId root hasEl sel cb uc parts) := by
  induction parts generalizing st with
  | nil => exact absurd rfl hne
  | cons ev rest ih =>
    cases rest with
    | nil =>
      simpa [mkOnHandles] using records_handleEventBinding_self st root
        ⟨ev, (ev == "blur" || ev == "focus" || uc), false, cb, .delegated root hasEl sel⟩
    | cons b bs =>
      rw [List.foldl_cons, ih _ (by simp)]
      simp [mkOnHandles, recordsOf, records_handleEventBinding_self, nextId_handleEventBinding]

end DDom.V3


namespace DDom

theorem splitSpaceAux_ne_nil (cs : List Char) (acc : List Char) :
    splitSpaceAux cs acc ≠ [] := by
  induction cs generalizing acc with
  | nil => simp [splitSpaceAux]
  | cons c cs ih =>
    by_cases hc : c = ' ' <;> simp [splitSpaceAux, hc, ih]

theorem splitSpace_ne_nil (s : String) : splitSpace s ≠ [] :=
  splitSpaceAux_ne_nil s.data []

/-- C5 (amended): only the delegated `on` forces the capture flag for
the event names "blur" and "focus".  A record created by the v0.3
`eventBind` (hence also by eventClick and eventOnce, which delegate to
it) carries exactly the capture flag the caller requested, even when
the event name is "focus" or "blur"; every record created by `on`
carries `capture = (event === "blur" || event === "focus" ||
useCapture)`, which is true for "blur" and "focus" whatever the caller
requested. -/
theorem C5_capture_forced_only_by_on (st : V3.St) (e root cb : Nat) (uc once : Bool)
    (events ty s : String) (st' : V3.St) :
    (lookupS (V3.eventBind st [e] ty cb uc once).store e =
      some (V3.recordsOf st e ++ [⟨st.nextId, ty, uc, once, cb, .direct e ty⟩])) ∧
    (V3.onBind st [root] events (.sel s) (some cb) uc = some st' →
      lookupS st'.store root =
        some (V3.recordsOf st root ++
          V3.mkOnHandles st.nextId root true s cb uc (splitSpace events))) ∧
    (∀ h ∈ V3.mkOnHandles st.nextId root true s cb uc (splitSpace events),
      h.capture = (h.event == "blur" || h.event == "focus" || uc)) ∧
    (∀ h ∈ V3.mkOnHandles st.nextId root true s cb uc (splitSpace events),
      h.event = "blur" ∨ h.event = "focus" → h.capture = true) := by
  refine ⟨?_, ?_, ?_, ?_⟩
  · simpa using V3.records_handleEventBinding_self st e ⟨ty, uc, once, cb, .direct e ty⟩
  · intro hsucc
    have : st' = (splitSpace events).foldl (fun acc ev => V3.handleEventBinding acc root
        ⟨ev, (ev == "blur" || ev == "focus" || uc), false, cb, .delegated root true s⟩) st := by
      simpa [V3.onBind] using hsucc.symm
    subst this
    exact V3.onBind_fold_records (splitSpace events) st root true s cb uc (splitSpace_ne_nil events)
  · exact V3.mkOnHandles_capture (splitSpace events) st.nextId root true s cb uc
  · intro h hh hev
    have := V3.mkOnHandles_capture (splitSpace events) st.nextId root true s cb uc h hh
    rcases hev with hb | hb <;> simp [this, hb]

/-- Witness for C5 at concrete inputs: binding elements 4 (eventBind
with event "focus", capture false) and 5 (on with events "focus blur",
capture false) in the empty state. -/
theorem C5_capture_forced_only_by_on_witness :
    (V3.onBind V3.emptySt [5] "focus blur" (.sel "a.foo") (some 9) false =
      some ((V3.onBind V3.emptySt [5] "focus blur" (.sel "a.foo") (some 9) false).getD V3.emptySt)) ∧
    (lookupS (V3.eventBind V3.emptySt [4] "focus" 9 false false).store 4 =
      some (V3.recordsOf V3.emptySt 4 ++ [⟨0, "focus", false, false, 9, .direct 4 "focus"⟩]) ∧
     lookupS ((V3.onBind V3.emptySt [5] "focus blur" (.sel "a.foo") (some 9) false).getD V3.emptySt).store 5 =
      some (V3.recordsOf V3.emptySt 5 ++
        V3.mkOnHandles 0 5 true "a.foo" 9 false (splitSpace "focus blur"))) :=
  ⟨rfl, by
    have h := C5_capture_forced_only_by_on V3.emptySt 4 5 9 false false "focus blur" "focus"
      "a.foo" ((V3.onBind V3.emptySt [5] "focus blur" (.sel "a.foo") (some 9) false).getD V3.emptySt)
    exact ⟨h.1, h.2.1 rfl⟩⟩

end DDom

namespace DDom

/-- C8 (amended): only the delegated `on` splits its event-name
argument, and it splits on the single space character (not on
arbitrary whitespace): on success it appends to the root element one
record per piece of `events.split(" ")`, in order, each carrying its
piece as event name and all sharing the same callback and the same
delegation parameters (the dispatch wrapper behaviour).  The direct
binder `eventBind` performs no splitting at all: it appends exactly one
record whose event name is the argument string taken verbatim. -/
theorem C8_event_name_splitting (st : V3.St) (e root cb : Nat) (uc once : Bool)
    (events ty s : String) (st' : V3.St) :
    (V3.onBind st [root] events (.sel s) (some cb) uc = some st' →
      lookupS st'.store root =
        some (V3.recordsOf st root ++
          V3.mkOnHandles st.nextId root true s cb uc (splitSpace events)) ∧
      (V3.mkOnHandles st.nextId root true s cb uc (splitSpace events)).map V3.Handle.event =
        splitSpace events ∧
      (∀ h ∈ V3.mkOnHandles st.nextId root true s cb uc (splitSpace events),
        h.callback = cb ∧ h.beh = .delegated root true s ∧ h.once = false)) ∧
    (lookupS (V3.eventBind st [e] ty cb uc once).store e =
      some (V3.recordsOf st e ++ [⟨st.nextId, ty, uc, once, cb, .direct e ty⟩])) := by
  constructor
  · intro hsucc
    have hst : st' = (splitSpace events).foldl (fun acc ev => V3.handleEventBinding acc root
        ⟨ev, (ev == "blur" || ev == "focus" || uc), false, cb, .delegated root true s⟩) st := by
      simpa [V3.onBind] using hsucc.symm
    subst hst
    refine ⟨V3.onBind_fold_records (splitSpace events) st root true s cb uc
        (splitSpace_ne_nil events), ?_, ?_⟩
    · exact V3.mkOnHandles_events (splitSpace events) st.nextId root true s cb uc
    · exact V3.mkOnHandles_shared (splitSpace events) st.nextId root true s cb uc
  · simpa using V3.records_handleEventBinding_self st e ⟨ty, uc, once, cb, .direct e ty⟩

/-- Witness for C8 at concrete inputs: `on` with "click keyup" creates
two records, one per space-separated name; `eventBind` with the same
string creates a single record named "click keyup". -/
theorem C8_event_name_splitting_witness :
    (V3.onBind V3.emptySt [5] "click keyup" (.sel "a.foo") (some 9) false =
      some ((V3.onBind V3.emptySt [5] "click keyup" (.sel "a.foo") (some 9) false).getD V3.emptySt)) ∧
    ((V3.mkOnHandles 0 5 true "a.foo" 9 false (splitSpace "click keyup")).map V3.Handle.event =
      splitSpace "click keyup") ∧
    (lookupS (V3.eventBind V3.emptySt [4] "click keyup" 9 false false).store 4 =
      some (V3.recordsOf V3.emptySt 4 ++ [⟨0, "click keyup", false, false, 9, .direct 4 "click keyup"⟩])) :=
  ⟨rfl, by
    have h := C8_event_name_splitting V3.emptySt 4 5 9 false false "click keyup" "click keyup"
      "a.foo" ((V3.onBind V3.emptySt [5] "click keyup" (.sel "a.foo") (some 9) false).getD V3.emptySt)
    exact (h.1 rfl).2.1,
   by
    have h := C8_event_name_splitting V3.emptySt 4 5 9 false false "click keyup" "click keyup"
      "a.foo" ((V3.onBind V3.emptySt [5] "click keyup" (.sel "a.foo") (some 9) false).getD V3.emptySt)
    exact h.2⟩

end DDom

namespace DDom

theorem v3_once_state (e cb : Nat) (ty : String) (uc : Bool) :
    V3.eventOnce V3.emptySt [e] ty cb uc =
      ⟨[⟨e, ty, 0, uc, true, cb, .direct e ty⟩], [(e, [⟨0, ty, uc, true, cb, .direct e ty⟩])], 1⟩ := by
  simp [V3.eventOnce, V3.eventBind, V3.handleEventBinding, V3.addListener, V3.regOf,
    V3.emptySt, lookupS, storeSet]

theorem v3_once_dispatch (e cb : Nat) (ty : String) (uc : Bool)
    (target : Node) (anc : List Node) (m : String → Nat → Bool) (res1 : Nat → CbResult) :
    V3.dispatch (V3.eventOnce V3.emptySt [e] ty cb uc) e ty target anc m res1 =
      ([(cb, e)], ⟨[], [], 1⟩) := by
  rw [v3_once_state]
  simp [V3.dispatch, V3.containsKey, V3.regKeyEq, V3.fireOne, V3.removeListener,
    V3.createEventBind, V3.removeMatching, lookupS, storeDelete, invokeEffects_invoked,
    List.filter]

theorem v2_once_state (e cb : Nat) (ty : String) (uc : Bool) :
    V2.eventOnce V2.emptySt [e] ty cb uc =
      ⟨[⟨e, ty, 0, uc, cb, .onceH e ty 0⟩], [(e, [⟨0, ty, uc, cb⟩])], 1⟩ := by
  simp [V2.eventOnce, V2.eventBindCache, V2.addListener, V2.emptySt, lookupS, storeSet]

theorem v2_once_dispatch_false (e cb : Nat) (ty : String) (evi : V2.Ev)
    (target : Node) (anc : List Node) (m : String → Nat → Bool) (res1 : Nat → CbResult) :
    V2.dispatch (V2.eventOnce V2.emptySt [e] ty cb false) e ty evi target anc m res1 =
      ([(cb, e)], ⟨[], [(e, [⟨0, ty, false, cb⟩])], 1⟩) := by
  rw [v2_once_state]
  simp [V2.dispatch, V2.containsKey, V2.regKeyEq, V2.fireOne, V2.removeListener,
    invokeEffects_invoked, List.filter]

theorem v2_once_dispatch_true (e cb : Nat) (ty : String) (evi : V2.Ev)
    (target : Node) (anc : List Node) (m : String → Nat → Bool) (res1 : Nat → CbResult) :
    V2.dispatch (V2.eventOnce V2.emptySt [e] ty cb true) e ty evi target anc m res1 =
      ([(cb, e)], ⟨[⟨e, ty, 0, true, cb, .onceH e ty 0⟩], [(e, [⟨0, ty, true, cb⟩])], 1⟩) := by
  rw [v2_once_state]
  simp [V2.dispatch, V2.containsKey, V2.regKeyEq, V2.fireOne, V2.removeListener,
    invokeEffects_invoked, List.filter]

/-- C1 (amended): in the v0.3 variant the claim holds as stated — after
`eventOnce` on a single element, the first trigger invokes the callback
exactly once (whatever the callback returns or throws) and deregisters
the record from platform and store, the store holds no record for the
element, and a second trigger invokes nothing and changes nothing.  In
the legacy v0.2 `eventOnce` (single-element collection) the first
trigger also invokes the callback once but the store record always
remains — the wrapper runs `this.removeEventListener(type, handle.f)`
only — so the record is deregistered from the platform alone, and only
when the binding was bubble-phase: the removal omits the capture flag,
so a capture-phase once listener stays registered and fires again on
the second trigger. -/
theorem C1_once_invoked_exactly_once (e cb : Nat) (ty : String) (uc : Bool) (evi : V2.Ev)
    (target : Node) (anc : List Node) (m : String → Nat → Bool) (res1 res2 : Nat → CbResult) :
    ((V3.dispatch (V3.eventOnce V3.emptySt [e] ty cb uc) e ty target anc m res1).1 = [(cb, e)] ∧
     (V3.dispatch (V3.eventOnce V3.emptySt [e] ty cb uc) e ty target anc m res1).2.store = [] ∧
     (V3.dispatch (V3.eventOnce V3.emptySt [e] ty cb uc) e ty target anc m res1).2.platform = [] ∧
     V3.dispatch ((V3.dispatch (V3.eventOnce V3.emptySt [e] ty cb uc) e ty target anc m res1).2)
         e ty target anc m res2 =
       ([], (V3.dispatch (V3.eventOnce V3.emptySt [e] ty cb uc) e ty target anc m res1).2)) ∧
    ((V2.dispatch (V2.eventOnce V2.emptySt [e] ty cb uc) e ty evi target anc m res1).1 = [(cb, e)] ∧
     (V2.dispatch (V2.eventOnce V2.emptySt [e] ty cb uc) e ty evi target anc m res1).2.store =
       (V2.eventOnce V2.emptySt [e] ty cb uc).store ∧
     (uc = false →
       (V2.dispatch (V2.eventOnce V2.emptySt [e] ty cb false) e ty evi target anc m res1).2.platform = [] ∧
       (V2.dispatch ((V2.dispatch (V2.eventOnce V2.emptySt [e] ty cb false) e ty evi target anc m
           res1).2) e ty evi target anc m res2).1 = []) ∧
     (uc = true →
       (V2.dispatch (V2.eventOnce V2.emptySt [e] ty cb true) e ty evi target anc m res1).2 =
         V2.eventOnce V2.emptySt [e] ty cb true ∧
       (V2.dispatch ((V2.dispatch (V2.eventOnce V2.emptySt [e] ty cb true) e ty evi target anc m
           res1).2) e ty evi target anc m res2).1 = [(cb, e)])) := by
  refine ⟨⟨?_, ?_, ?_, ?_⟩, ?_, ?_, ?_, ?_⟩
  · simp [v3_once_dispatch]
  · simp [v3_once_dispatch]
  · simp [v3_once_dispatch]
  · rw [v3_once_dispatch]
    simp [V3.dispatch, List.filter]
  · cases uc
    · simp [v2_once_dispatch_false]
    · simp [v2_once_dispatch_true]
  · cases uc
    · rw [v2_once_dispatch_false, v2_once_state]
    · rw [v2_once_dispatch_true, v2_once_state]
  · intro h
    refine ⟨by simp [v2_once_dispatch_false], ?_⟩
    rw [v2_once_dispatch_false]
    simp [V2.dispatch, List.filter]
  · intro h
    refine ⟨by rw [v2_once_dispatch_true, v2_once_state], ?_⟩
    rw [v2_once_dispatch_true, ← v2_once_state, v2_once_dispatch_true]

end DDom

namespace DDom

/-- Witness for C1 at concrete inputs, discharging the embedded
bubble-phase and capture-phase implications. -/
theorem C1_once_invoked_exactly_once_witness :
    ((false = false) ∧ (true = true)) ∧
    ((V2.dispatch (V2.eventOnce V2.emptySt [5] "click" 7 false) 5 "click" ⟨false, none⟩
        ⟨5, 1⟩ [] (fun _ _ => false) (fun _ => .ret false)).2.platform = []) ∧
    ((V2.dispatch (V2.eventOnce V2.emptySt [5] "click" 7 true) 5 "click" ⟨false, none⟩
        ⟨5, 1⟩ [] (fun _ _ => false) (fun _ => .ret false)).2 =
      V2.eventOnce V2.emptySt [5] "click" 7 true) :=
  ⟨⟨rfl, rfl⟩,
   ((C1_once_invoked_exactly_once 5 7 "click" false ⟨false, none⟩ ⟨5, 1⟩ []
      (fun _ _ => false) (fun _ => .ret false) (fun _ => .ret false)).2.2.2.1 rfl).1,
   ((C1_once_invoked_exactly_once 5 7 "click" true ⟨false, none⟩ ⟨5, 1⟩ []
      (fun _ _ => false) (fun _ => .ret false) (fun _ => .ret false)).2.2.2.2 rfl).1⟩

end DDom


namespace DDom

theorem v3_foldl_removeListener (hs : List V3.Handle) (regs : List V3.Reg) (e : Nat) :
    hs.foldl (fun rs h => V3.removeListener rs e h.event h.hid h.capture) regs =
      regs.filter (fun r => !(hs.any (fun h =>
        r.elem == e && r.event == h.event && r.hid == h.hid && r.capture == h.capture))) := by
  induction hs generalizing regs with
  | nil => simp
  | cons h hs ih =>
    simp only [List.foldl_cons, List.any_cons]
    rw [ih]
    unfold V3.removeListener
    rw [List.filter_filter]
    apply List.filter_congr
    intro r _
    simp [Bool.not_or, Bool.and_comm]

theorem v2_foldl_removeListener (hs : List V2.Handle) (regs : List V2.Reg) (e : Nat) :
    hs.foldl (fun rs h => V2.removeListener rs e h.event h.hid h.capture) regs =
      regs.filter (fun r => !(hs.any (fun h =>
        r.elem == e && r.event == h.event && r.hid == h.hid && r.capture == h.capture))) := by
  induction hs generalizing regs with
  | nil => simp
  | cons h hs ih =>
    simp only [List.foldl_cons, List.any_cons]
    rw [ih]
    unfold V2.removeListener
    rw [List.filter_filter]
    apply List.filter_congr
    intro r _
    simp [Bool.not_or, Bool.and_comm]

end DDom

namespace DDom.V3

theorem addListener_fresh (regs : List Reg) (r : Reg) (hf : ∀ q ∈ regs, q.hid ≠ r.hid) :
    addListener regs r = regs ++ [r] := by
  unfold addListener
  rw [if_neg]
  intro hany
  rcases List.any_eq_true.mp hany with ⟨q, hq, hkey⟩
  have := hf q hq
  unfold regKeyEq at hkey
  simp only [Bool.and_eq_true, beq_iff_eq] at hkey
  exact this hkey.1.2

theorem lookup_of_mem_records (st : St) (x : Nat) (h : Handle) (hm : h ∈ recordsOf st x) :
    lookupS st.store x = some (recordsOf st x) := by
  unfold recordsOf at hm ⊢
  cases hl : lookupS st.store x with
  | none => rw [hl] at hm; simp at hm
  | some hs => simp

theorem rm_platform (st : St) (e : Nat) (hs : List Handle) (p : Handle → Bool) :
    (removeMatching st e hs p).platform =
      st.platform.filter (fun r => !((hs.filter p).any (fun h =>
        r.elem == e && r.event == h.event && r.hid == h.hid && r.capture == h.capture))) := by
  unfold removeMatching
  simpa using DDom.v3_foldl_removeListener (hs.filter p) st.platform e

theorem rm_records_self (st : St) (e : Nat) (hs : List Handle) (p : Handle → Bool) :
    recordsOf (removeMatching st e hs p) e = hs.filter (fun h => !(p h)) := by
  unfold removeMatching recordsOf
  by_cases hk : (hs.filter (fun h => !(p h))).isEmpty
  · have hnil := List.isEmpty_iff.mp hk
    simp [hk, DDom.lookupS_storeDelete_self, hnil]
  · have hk' : (hs.filter (fun h => !(p h))).isEmpty = false := by simpa using hk
    simp [hk', DDom.lookupS_storeSet_self]

theorem rm_records_ne (st : St) (e x : Nat) (hs : List Handle) (p : Handle → Bool)
    (hne : x ≠ e) :
    recordsOf (removeMatching st e hs p) x = recordsOf st x := by
  unfold removeMatching recordsOf
  by_cases hk : (hs.filter (fun h => !(p h))).isEmpty
  · simp [hk, DDom.lookupS_storeDelete_ne _ _ _ hne]
  · have hk' : (hs.filter (fun h => !(p h))).isEmpty = false := by simpa using hk
    simp [hk', DDom.lookupS_storeSet_ne _ _ _ _ hne]

theorem rm_nextId (st : St) (e : Nat) (hs : List Handle) (p : Handle → Bool) :
    (removeMatching st e hs p).nextId = st.nextId := rfl

end DDom.V3

namespace DDom.V3

theorem inv_removeMatching (st : St) (e : Nat) (hs : List Handle) (p : Handle → Bool)
    (hl : lookupS st.store e = some hs) (hinv : Inv st) :
    Inv (removeMatching st e hs p) ∧ ∀ r ∈ (removeMatching st e hs p).platform, r ∈ st.platform := by
  obtain ⟨⟨hpnd, hpb⟩, hrec, hiff⟩ := hinv
  have hrecords : recordsOf st e = hs := by unfold recordsOf; rw [hl]; rfl
  have hplat := rm_platform st e hs p
  have hsub : ∀ r ∈ (removeMatching st e hs p).platform, r ∈ st.platform := by
    intro r hr
    rw [hplat] at hr
    exact (List.mem_filter.mp hr).1
  refine ⟨⟨⟨?_, ?_⟩, ?_, ?_⟩, hsub⟩
  · rw [hplat]
    exact hpnd.sublist ((List.filter_sublist _).map _)
  · intro r hr
    exact hpb r (hsub r hr)
  · intro x
    by_cases hx : x = e
    · subst hx
      rw [rm_records_self]
      have hx := hrec x
      constructor
      · rw [← hrecords] at *
        exact hx.1.sublist ((List.filter_sublist _).map _)
      · intro h hh
        exact hx.2 h (by rw [hrecords]; exact (List.mem_filter.mp hh).1)
    · rw [rm_records_ne _ _ _ _ _ hx, rm_nextId]
      exact hrec x
  · intro r
    rw [hplat, List.mem_filter]
    by_cases hre : r.elem = e
    · rw [hre, rm_records_self]
      have hnodup := (hrec e).1
      rw [hrecords] at hnodup
      constructor
      · rintro ⟨hrp, hnotany⟩
        rw [Bool.not_eq_true', List.any_eq_false] at hnotany
        rcases (hiff r).mp hrp with ⟨h, hh, heq⟩
        rw [hre, hrecords] at hh
        have hev : r.event = h.event := by rw [heq]; rfl
        have hhid : r.hid = h.hid := by rw [heq]; rfl
        have hcap : r.capture = h.capture := by rw [heq]; rfl
        have hpf : p h = false := by
          by_contra hb
          have hpt : p h = true := by simpa using hb
          have := hnotany h (List.mem_filter.mpr ⟨hh, hpt⟩)
          simp [hre, hev, hhid, hcap] at this
        rw [hre] at heq
        exact ⟨h, List.mem_filter.mpr ⟨hh, by simp [hpf]⟩, heq⟩
      · rintro ⟨h, hh, heq⟩
        have hmem := List.mem_filter.mp hh
        have hpf : p h = false := by simpa using hmem.2
        have hhs : h ∈ hs := hmem.1
        have hrp : r ∈ st.platform := (hiff r).mpr
          ⟨h, by rw [hre, hrecords]; exact hhs, by rw [hre]; exact heq⟩
        refine ⟨hrp, ?_⟩
        rw [Bool.not_eq_true', List.any_eq_false]
        intro h2 hh2
        have h2hs := (List.mem_filter.mp hh2).1
        have hp2 := (List.mem_filter.mp hh2).2
        by_contra hb
        have hconj : (r.event = h2.event ∧ r.hid = h2.hid) ∧ r.capture = h2.capture := by
          simpa using hb
        have hhid : h.hid = h2.hid := by
          have hr2 : r.hid = h2.hid := hconj.1.2
          rw [heq] at hr2
          exact hr2
        have heq2 : h = h2 := List.inj_on_of_nodup_map hnodup hhs h2hs hhid
        rw [← heq2] at hp2
        rw [hpf] at hp2
        cases hp2
    · rw [rm_records_ne _ _ _ _ _ hre]
      have hany0 : ((hs.filter p).any fun h2 =>
          r.elem == e && r.event == h2.event && r.hid == h2.hid && r.capture == h2.capture) = false := by
        rw [List.any_eq_false]
        intro h2 hh2
        simp [hre]
      rw [hany0]
      simpa using hiff r

end DDom.V3

namespace DDom.V3

theorem platform_handleEventBinding (st : St) (e : Nat) (hs : HandleSpec) :
    (handleEventBinding st e hs).platform =
      addListener st.platform
        (regOf e ⟨st.nextId, hs.event, hs.capture, hs.once, hs.callback, hs.beh⟩) := by
  unfold handleEventBinding
  cases lookupS st.store e <;> rfl

theorem recordsOf_handleEventBinding_self (st : St) (e : Nat) (hs : HandleSpec) :
    recordsOf (handleEventBinding st e hs) e =
      recordsOf st e ++ [⟨st.nextId, hs.event, hs.capture, hs.once, hs.callback, hs.beh⟩] := by
  unfold recordsOf
  rw [records_handleEventBinding_self]
  rfl

theorem recordsOf_handleEventBinding_ne (st : St) (e x : Nat) (hs : HandleSpec)
    (hne : x ≠ e) :
    recordsOf (handleEventBinding st e hs) x = recordsOf st x := by
  unfold recordsOf
  rw [records_handleEventBinding_ne _ _ _ _ hne]

theorem inv_handleEventBinding (st : St) (e : Nat) (hsp : HandleSpec)
    (hbd : ∀ be t, hsp.beh = .direct be t → be = e)
    (hbg : ∀ rt hl sl, hsp.beh = .delegated rt hl sl → hsp.once = false)
    (hinv : Inv st) : Inv (handleEventBinding st e hsp) := by
  obtain ⟨⟨hpnd, hpb⟩, hrec, hiff⟩ := hinv
  set h0 : Handle := ⟨st.nextId, hsp.event, hsp.capture, hsp.once, hsp.callback, hsp.beh⟩ with hh0
  have hf : ∀ q ∈ st.platform, q.hid ≠ (regOf e h0).hid := by
    intro q hq
    have := hpb q hq
    simp only [regOf, hh0]
    omega
  have hplat : (handleEventBinding st e hsp).platform = st.platform ++ [regOf e h0] := by
    rw [platform_handleEventBinding, addListener_fresh _ _ hf]
  have hnx : (handleEventBinding st e hsp).nextId = st.nextId + 1 :=
    nextId_handleEventBinding st e hsp
  refine ⟨⟨?_, ?_⟩, ?_, ?_⟩
  · rw [hplat, List.map_append]
    rw [List.nodup_append]
    refine ⟨hpnd, by simp, ?_⟩
    intro a ha
    simp only [List.map_cons, List.map_nil, List.mem_cons, List.not_mem_nil] at *
    rcases List.mem_map.mp ha with ⟨q, hq, hqa⟩
    have := hpb q hq
    simp only [regOf]
    intro hc
    rcases hc with hc | hc
    · omega
    · exact hc
  · intro r hr
    rw [hplat] at hr
    rw [hnx]
    rcases List.mem_append.mp hr with hold | hnew
    · have := hpb r hold; omega
    · simp at hnew
      rw [hnew]
      simp [regOf]
  · intro x
    rw [hnx]
    by_cases hx : x = e
    · subst hx
      rw [recordsOf_handleEventBinding_self]
      have hxr := hrec x
      constructor
      · rw [List.map_append]
        rw [List.nodup_append]
        refine ⟨hxr.1, by simp, ?_⟩
        intro a ha
        rcases List.mem_map.mp ha with ⟨q, hq, hqa⟩
        have := (hxr.2 q hq).1
        simp only [List.map_cons, List.map_nil, List.mem_cons, List.not_mem_nil]
        intro hc
        rcases hc with hc | hc
        · rw [← hqa] at hc; omega
        · exact hc
      · intro h hh
        rcases List.mem_append.mp hh with hold | hnew
        · have := hxr.2 h hold
          exact ⟨by omega, this.2⟩
        · simp at hnew
          subst hnew
          refine ⟨by simp [hh0], ?_, ?_⟩
          · intro be t hbe
            exact hbd be t (by simpa [hh0] using hbe)
          · intro rt hl sl hdel
            have := hbg rt hl sl (by simpa [hh0] using hdel)
            simp [hh0, this]
    · rw [recordsOf_handleEventBinding_ne _ _ _ _ hx]
      have hxr := hrec x
      refine ⟨hxr.1, ?_⟩
      intro h hh
      have := hxr.2 h hh
      exact ⟨by omega, this.2⟩
  · intro r
    rw [hplat, List.mem_append]
    by_cases hre : r.elem = e
    · rw [hre, recordsOf_handleEventBinding_self]
      constructor
      · rintro (hr | hr0)
        · rcases (hiff r).mp hr with ⟨h, hh, heq⟩
          rw [hre] at hh heq
          exact ⟨h, List.mem_append_left _ hh, heq⟩
        · simp only [List.mem_singleton] at hr0
          exact ⟨h0, List.mem_append_right _ (by simp), hr0⟩
      · rintro ⟨h, hh, heq⟩
        rcases List.mem_append.mp hh with hold | hnew
        · exact Or.inl ((hiff r).mpr ⟨h, by rw [hre]; exact hold, by rw [hre]; exact heq⟩)
        · simp only [List.mem_singleton] at hnew
          subst hnew
          exact Or.inr (by simp [heq])
    · rw [recordsOf_handleEventBinding_ne _ _ _ _ hre]
      constructor
      · rintro (hr | hr0)
        · exact (hiff r).mp hr
        · simp only [List.mem_singleton] at hr0
          rw [hr0] at hre
          simp [regOf] at hre
      · rintro ⟨h, hh, heq⟩
        exact Or.inl ((hiff r).mpr ⟨h, hh, heq⟩)

end DDom.V3

namespace DDom.V3

theorem St_ext (a b : St) (h1 : a.platform = b.platform) (h2 : a.store = b.store)
    (h3 : a.nextId = b.nextId) : a = b := by
  cases a; cases b; simp_all

theorem inv_fireOne (st : St) (r : Reg) (target : Node) (anc : List Node)
    (m : String → Nat → Bool) (res : Nat → CbResult)
    (hr : r ∈ st.platform) (hinv : Inv st) :
    Inv (fireOne st r target anc m res).2 ∧
    ∀ q ∈ (fireOne st r target anc m res).2.platform, q ∈ st.platform := by
  obtain ⟨⟨hpnd, hpb⟩, hrec, hiff⟩ := hinv
  have hinv' : Inv st := ⟨⟨hpnd, hpb⟩, hrec, hiff⟩
  rcases (hiff r).mp hr with ⟨h, hh, heq⟩
  have hbeh : behOk r.elem h := ((hrec r.elem).2 h hh).2
  have honce : r.once = h.once := by rw [heq]; rfl
  have hbehr : r.beh = h.beh := by rw [heq]; rfl
  have hcb : r.callback = h.callback := by rw [heq]; rfl
  have hev : r.event = h.event := by rw [heq]; rfl
  have hhid : r.hid = h.hid := by rw [heq]; rfl
  have hcap : r.capture = h.capture := by rw [heq]; rfl
  cases hbcase : r.beh with
  | delegated rt hl sl =>
    have hofalse : h.once = false := hbeh.2 rt hl sl (by rw [← hbehr]; exact hbcase)
    have hro : r.once = false := by rw [honce, hofalse]
    have hstate : (fireOne st r target anc m res).2 = st := by
      unfold fireOne
      rw [hro]
      simp only [if_false, Bool.false_eq_true]
      split
      · next be bt hd => rw [hbcase] at hd; cases hd
      · rfl
    rw [hstate]
    exact ⟨hinv', fun q hq => hq⟩
  | direct be bt =>
    have hbe : be = r.elem := hbeh.1 be bt (by rw [← hbehr]; exact hbcase)
    have hlk : lookupS st.store r.elem = some (recordsOf st r.elem) :=
      lookup_of_mem_records st r.elem h hh
    set hs := recordsOf st r.elem with hhs
    set p : Handle → Bool := fun h2 => h2.callback == r.callback && h2.once with hp
    cases hro : r.once with
    | false =>
      have hstate : (fireOne st r target anc m res).2 = removeMatching st r.elem hs p := by
        unfold fireOne
        rw [hro]
        simp only [Bool.false_eq_true, if_false]
        split
        · next be2 bt2 hd =>
          rw [hbcase] at hd
          injection hd with hbe2 hbt2
          subst hbe2
          unfold createEventBind
          rw [hbe, hlk]
        · next hd => rw [hbcase] at hd; cases hd
      rw [hstate]
      exact inv_removeMatching st r.elem hs p hlk hinv'
    | true =>
      have hptrue : p h = true := by
        rw [hp]
        simp only [Bool.and_eq_true, beq_iff_eq]
        exact ⟨hcb.symm, by rw [← honce, hro]⟩
      have hmemf : h ∈ hs.filter p := List.mem_filter.mpr ⟨by rw [hhs]; exact hh, hptrue⟩
      set s1 : St := ⟨removeListener st.platform r.elem r.event r.hid r.capture,
        st.store, st.nextId⟩ with hs1
      have hkeyany : ∀ q : Reg,
          (q.elem == r.elem && q.event == r.event && q.hid == r.hid && q.capture == r.capture) = true →
          ((hs.filter p).any fun h2 =>
            q.elem == r.elem && q.event == h2.event && q.hid == h2.hid && q.capture == h2.capture) = true := by
        intro q hk
        simp only [Bool.and_eq_true, beq_iff_eq] at hk
        apply List.any_eq_true.mpr
        refine ⟨h, hmemf, ?_⟩
        simp only [Bool.and_eq_true, beq_iff_eq]
        exact ⟨⟨⟨hk.1.1.1, by rw [hk.1.1.2, hev]⟩, by rw [hk.1.2, hhid]⟩, by rw [hk.2, hcap]⟩
      have hplateq : (removeMatching s1 r.elem hs p).platform =
          (removeMatching st r.elem hs p).platform := by
        rw [rm_platform, rm_platform]
        have hs1p : s1.platform = st.platform.filter (fun q =>
            !(q.elem == r.elem && q.event == r.event && q.hid == r.hid && q.capture == r.capture)) := rfl
        rw [hs1p, List.filter_filter]
        apply List.filter_congr
        intro q _
        by_cases hk : (q.elem == r.elem && q.event == r.event && q.hid == r.hid &&
            q.capture == r.capture) = true
        · have := hkeyany q hk
          rw [hk, this]
          simp
        · have hk' : (q.elem == r.elem && q.event == r.event && q.hid == r.hid &&
              q.capture == r.capture) = false := by simpa using hk
          rw [hk']
          simp
      have hstate : (fireOne st r target anc m res).2 = removeMatching st r.elem hs p := by
        have hfire : (fireOne st r target anc m res).2 = removeMatching s1 r.elem hs p := by
          unfold fireOne
          rw [hro]
          simp only [if_true]
          split
          · next be2 bt2 hd =>
            rw [hbcase] at hd
            injection hd with hbe2 hbt2
            subst hbe2
            unfold createEventBind
            rw [hbe]
            have : s1.store = st.store := rfl
            rw [show lookupS s1.store r.elem = some hs from by rw [this, hlk, hhs]]
          · next hd => rw [hbcase] at hd; cases hd
        rw [hfire]
        apply St_ext
        · exact hplateq
        · rfl
        · rfl
      rw [hstate]
      exact inv_removeMatching st r.elem hs p hlk hinv'

end DDom.V3

namespace DDom.V3

theorem inv_dispatch_fold (st : St) (target : Node) (anc : List Node)
    (m : String → Nat → Bool) (res : Nat → CbResult)
    (hinvst : Inv st)
    (l : List Reg) (hl : ∀ q ∈ l, q ∈ st.platform) :
    ∀ acc : List (Nat × Nat) × St,
      Inv acc.2 → (∀ q ∈ acc.2.platform, q ∈ st.platform) →
      Inv ((l.foldl (fun acc r =>
        if containsKey acc.2.platform r then
          let out := fireOne acc.2 r target anc m res
          (acc.1 ++ out.1, out.2)
        else acc) acc).2) := by
  induction l with
  | nil => intro acc hi _; simpa using hi
  | cons r l ih =>
    intro acc hi hsub
    rw [List.foldl_cons]
    by_cases hc : containsKey acc.2.platform r = true
    · have hrin : r ∈ acc.2.platform := by
        rcases List.any_eq_true.mp hc with ⟨q, hq, hkey⟩
        unfold regKeyEq at hkey
        simp only [Bool.and_eq_true, beq_iff_eq] at hkey
        have hqst : q ∈ st.platform := hsub q hq
        have hrst : r ∈ st.platform := hl r (List.mem_cons_self r l)
        have : q = r := List.inj_on_of_nodup_map hinvst.1.1 hqst hrst hkey.1.2
        rw [← this]
        exact hq
      have hfi := inv_fireOne acc.2 r target anc m res hrin hi
      simp only [hc, if_true]
      exact ih (fun q hq => hl q (List.mem_cons_of_mem r hq))
        (acc.1 ++ (fireOne acc.2 r target anc m res).1, (fireOne acc.2 r target anc m res).2)
        hfi.1 (fun q hq => hsub q (hfi.2 q hq))
    · have hc' : containsKey acc.2.platform r = false := by simpa using hc
      simp only [hc', Bool.false_eq_true, if_false]
      exact ih (fun q hq => hl q (List.mem_cons_of_mem r hq)) acc hi hsub

theorem inv_dispatch (st : St) (e : Nat) (ev : String) (target : Node) (anc : List Node)
    (m : String → Nat → Bool) (res : Nat → CbResult) (hinv : Inv st) :
    Inv (dispatch st e ev target anc m res).2 := by
  unfold dispatch
  apply inv_dispatch_fold st target anc m res hinv
  · intro q hq
    exact (List.mem_filter.mp hq).1
  · exact hinv
  · intro q hq
    exact hq

theorem inv_eventBind (elems : List Nat) (st : St) (type : String) (cb : Nat)
    (uc once : Bool) (hinv : Inv st) : Inv (eventBind st elems type cb uc once) := by
  induction elems generalizing st with
  | nil => simpa [eventBind] using hinv
  | cons e elems ih =>
    unfold eventBind
    rw [List.foldl_cons]
    exact ih _ (inv_handleEventBinding st e _
      (fun be t hbe => by injection hbe with h1 h2; exact h1.symm)
      (fun rt hl sl hd => by cases hd) hinv)

theorem inv_onFold (parts : List String) (st : St) (root : Nat) (hasEl : Bool)
    (sel : String) (cb : Nat) (uc : Bool) (hinv : Inv st) :
    Inv (parts.foldl (fun s evn => handleEventBinding s root
      ⟨evn, (evn == "blur" || evn == "focus" || uc), false, cb, .delegated root hasEl sel⟩) st) := by
  induction parts generalizing st with
  | nil => simpa using hinv
  | cons evn parts ih =>
    rw [List.foldl_cons]
    exact ih _ (inv_handleEventBinding st root _
      (fun be t hbe => by cases hbe)
      (fun rt hl sl hd => rfl) hinv)

theorem inv_off (elems : List Nat) (st : St) (evT : Option String) (f : Option Nat)
    (hinv : Inv st) : Inv (off st elems evT f) := by
  induction elems generalizing st with
  | nil => simpa [off] using hinv
  | cons e elems ih =>
    unfold off
    rw [List.foldl_cons]
    have hone : Inv (offElem st e evT f) := by
      unfold offElem
      cases hl : lookupS st.store e with
      | none => exact hinv
      | some hs => exact (inv_removeMatching st e hs _ hl hinv).1
    exact ih _ hone

theorem inv_step (op : Op) (st : St) (hinv : Inv st) : Inv (op.step st) := by
  cases op with
  | bindE elems type cb uc once => exact inv_eventBind elems st type cb uc once hinv
  | clickE elems cb uc => exact inv_eventBind elems st "click" cb uc false hinv
  | onceE elems type cb uc => exact inv_eventBind elems st type cb uc true hinv
  | onE elems events data cb uc =>
    simp only [Op.step]
    cases honb : onBind st elems events data cb uc with
    | none => simpa using hinv
    | some st' =>
      simp only [Option.getD_some]
      match elems, honb with
      | [root], honb =>
        unfold onBind at honb
        rcases data with c | s
        · simp only [Option.some.injEq] at honb
          rw [← honb]
          exact inv_onFold _ st root false "" c uc hinv
        · cases cb with
          | none => simp at honb
          | some c =>
            simp only [Option.some.injEq] at honb
            rw [← honb]
            exact inv_onFold _ st root true s c uc hinv
  | offE elems evT f => exact inv_off elems st evT f hinv
  | dispatchE e ev target anc m res => exact inv_dispatch st e ev target anc m res hinv

theorem inv_emptySt : Inv emptySt := by
  refine ⟨⟨by simp [emptySt], by simp [emptySt]⟩, ?_, ?_⟩
  · intro x
    simp [emptySt, recordsOf, lookupS]
  · intro r
    simp [emptySt, recordsOf, lookupS]

theorem inv_run (ops : List Op) : Inv (run ops) := by
  have haux : ∀ (l : List Op) (st : St), Inv st → Inv (l.foldl (fun s op => op.step s) st) := by
    intro l
    induction l with
    | nil => intro st h; simpa using h
    | cons op l ih =>
      intro st h
      rw [List.foldl_cons]
      exact ih _ (inv_step op st h)
  exact haux ops emptySt inv_emptySt

end DDom.V3

namespace DDom

/-- C6 (amended): the claimed invariant holds at every state the v0.3
variant can reach by any sequence of its public operations (eventBind,
eventClick, eventOnce, on, off, and event delivery): a dispatch wrapper
registration is on the platform if and only if the corresponding
listener record exists in the handler cache entry of its element, and
no two platform registrations share the same
(eventName, capture, dispatch-closure) triple.  The v0.2 variant
violates the iff after an eventOnce dispatch (see the counterexample):
its wrapper removes the platform listener but leaves the store
record. -/
theorem C6_registration_invariant : ∀ ops : List V3.Op,
    V3.Inv (V3.run ops) ∧
    (∀ r : V3.Reg, r ∈ (V3.run ops).platform ↔
      ∃ h ∈ V3.recordsOf (V3.run ops) r.elem, r = V3.regOf r.elem h) ∧
    (V3.run ops).platform.Pairwise
      (fun a b => ¬(a.event = b.event ∧ a.capture = b.capture ∧ a.hid = b.hid)) := by
  intro ops
  have hinv := V3.inv_run ops
  refine ⟨hinv, hinv.2.2, ?_⟩
  have hnd := hinv.1.1
  have hp : (V3.run ops).platform.Pairwise (fun a b => a.hid ≠ b.hid) := by
    rw [List.Nodup, List.pairwise_map] at hnd
    exact hnd
  exact hp.imp (fun hne hc => hne hc.2.2)

end DDom


namespace DDom

/-- C4: off of either variant removes a record from the platform and
from the store exactly when the event filter is unset or equals the
record event name and the callback filter is unset or reference-equal
to the record callback (`offMatch` spells that condition verbatim from
the source); records failing the filter stay in the store and their
platform registrations are untouched (their keys appear in no removal);
and the element entry itself is deleted from the store exactly when no
record survives, otherwise the surviving records remain under the
entry.  An element with no store entry is left entirely unchanged;
and under the store/platform invariant every surviving record is still
registered with the platform, so it still fires. -/
theorem C4_off_filter_semantics (st3 : V3.St) (st2 : V2.St) (e : Nat)
    (evF : Option String) (cbF : Option Nat) :
    (lookupS st3.store e = none → V3.off st3 [e] evF cbF = st3) ∧
    (∀ hs, lookupS st3.store e = some hs →
      (V3.off st3 [e] evF cbF).platform =
        st3.platform.filter (fun r => !((hs.filter (V3.offMatch evF cbF)).any (fun h =>
          r.elem == e && r.event == h.event && r.hid == h.hid && r.capture == h.capture))) ∧
      lookupS (V3.off st3 [e] evF cbF).store e =
        (if (hs.filter (fun h => !(V3.offMatch evF cbF h))).isEmpty then none
         else some (hs.filter (fun h => !(V3.offMatch evF cbF h)))) ∧
      (∀ h, h ∈ V3.recordsOf (V3.off st3 [e] evF cbF) e ↔
        h ∈ hs ∧ V3.offMatch evF cbF h = false) ∧
      (∀ e2, e2 ≠ e → lookupS (V3.off st3 [e] evF cbF).store e2 = lookupS st3.store e2) ∧
      (V3.off st3 [e] evF cbF).nextId = st3.nextId) ∧
    (lookupS st2.store e = none → V2.off st2 [e] evF cbF = st2) ∧
    (∀ hs, lookupS st2.store e = some hs →
      (V2.off st2 [e] evF cbF).platform =
        st2.platform.filter (fun r => !((hs.filter (V2.offMatch evF cbF)).any (fun h =>
          r.elem == e && r.event == h.event && r.hid == h.hid && r.capture == h.capture))) ∧
      lookupS (V2.off st2 [e] evF cbF).store e =
        (if (hs.filter (fun h => !(V2.offMatch evF cbF h))).isEmpty then none
         else some (hs.filter (fun h => !(V2.offMatch evF cbF h)))) ∧
      (∀ e2, e2 ≠ e → lookupS (V2.off st2 [e] evF cbF).store e2 = lookupS st2.store e2) ∧
      (V2.off st2 [e] evF cbF).nextId = st2.nextId) ∧
    (V3.Inv st3 → ∀ h ∈ V3.recordsOf (V3.off st3 [e] evF cbF) e,
      V3.regOf e h ∈ (V3.off st3 [e] evF cbF).platform) := by
  refine ⟨?_, ?_, ?_, ?_, ?_⟩
  · intro hnone
    simp [V3.off, V3.offElem, hnone]
  · intro hs hsome
    have hoff : V3.off st3 [e] evF cbF = V3.removeMatching st3 e hs (V3.offMatch evF cbF) := by
      simp [V3.off, V3.offElem, hsome]
    refine ⟨?_, ?_, ?_, ?_, ?_⟩
    · rw [hoff]
      simpa [V3.removeMatching] using v3_foldl_removeListener (hs.filter (V3.offMatch evF cbF))
        st3.platform e
    · rw [hoff]
      unfold V3.removeMatching
      by_cases hk : (hs.filter (fun h => !(V3.offMatch evF cbF h))).isEmpty
      · simp [hk, lookupS_storeDelete_self]
      · simp [hk, lookupS_storeSet_self]
    · intro h
      rw [hoff]
      unfold V3.removeMatching V3.recordsOf
      by_cases hk : (hs.filter (fun h => !(V3.offMatch evF cbF h))).isEmpty
      · have hnil := List.isEmpty_iff.mp hk
        simp only [hk, if_true, lookupS_storeDelete_self, Option.getD_none]
        simp only [List.not_mem_nil, false_iff]
        intro hc
        have : h ∈ hs.filter (fun h => !(V3.offMatch evF cbF h)) :=
          List.mem_filter.mpr ⟨hc.1, by simp [hc.2]⟩
        simp [hnil] at this
      · have hk' : (hs.filter (fun h => !(V3.offMatch evF cbF h))).isEmpty = false := by
          simpa using hk
        simp only [hk', Bool.false_eq_true, if_false, lookupS_storeSet_self, Option.getD_some]
        constructor
        · intro hmem
          have hx := List.mem_filter.mp hmem
          exact ⟨hx.1, by simpa using hx.2⟩
        · intro hx
          exact List.mem_filter.mpr ⟨hx.1, by simp [hx.2]⟩
    · intro e2 hne
      rw [hoff]
      unfold V3.removeMatching
      by_cases hk : (hs.filter (fun h => !(V3.offMatch evF cbF h))).isEmpty
      · simp [hk, lookupS_storeDelete_ne _ _ _ hne]
      · simp [hk, lookupS_storeSet_ne _ _ _ _ hne]
    · rw [hoff]; rfl
  · intro hnone
    simp [V2.off, V2.offElem, hnone]
  · intro hs hsome
    have hlen : (0 < (hs.filter (fun h => !(V2.offMatch evF cbF h))).length) ↔
        ¬(hs.filter (fun h => !(V2.offMatch evF cbF h))).isEmpty := by
      rw [List.isEmpty_iff_length_eq_zero]
      omega
    have hoff : V2.off st2 [e] evF cbF = V2.offElem st2 e evF cbF := by
      simp [V2.off]
    refine ⟨?_, ?_, ?_, ?_⟩
    · rw [hoff]
      unfold V2.offElem
      simp only [hsome]
      simpa using v2_foldl_removeListener (hs.filter (V2.offMatch evF cbF)) st2.platform e
    · rw [hoff]
      unfold V2.offElem
      simp only [hsome]
      by_cases hk : (hs.filter (fun h => !(V2.offMatch evF cbF h))).isEmpty
      · have : ¬(0 < (hs.filter (fun h => !(V2.offMatch evF cbF h))).length) := by
          rw [hlen]; exact fun hc => hc hk
        simp [hk, this, lookupS_storeDelete_self]
      · have : 0 < (hs.filter (fun h => !(V2.offMatch evF cbF h))).length := hlen.mpr hk
        simp [hk, this, lookupS_storeSet_self]
    · intro e2 hne
      rw [hoff]
      unfold V2.offElem
      simp only [hsome]
      by_cases hk : 0 < (hs.filter (fun h => !(V2.offMatch evF cbF h))).length
      · simp [hk, lookupS_storeSet_ne _ _ _ _ hne]
      · simp [hk, lookupS_storeDelete_ne _ _ _ hne]
    · rw [hoff]
      unfold V2.offElem
      simp only [hsome]
  · intro hinv h hh
    have hinvoff := V3.inv_off [e] st3 evF cbF hinv
    exact (hinvoff.2.2 (V3.regOf e h)).mpr ⟨h, hh, rfl⟩

end DDom

namespace DDom

/-- Witness for C4: a single "click" record on element 4 is removed by
`off("click")` and the emptied store entry is deleted; an element with
no entry is untouched. -/
theorem C4_off_filter_semantics_witness :
    (lookupS (V3.eventBind V3.emptySt [4] "click" 9 false false).store 4 =
      some [⟨0, "click", false, false, 9, .direct 4 "click"⟩]) ∧
    (lookupS (V3.off (V3.eventBind V3.emptySt [4] "click" 9 false false) [4]
      (some "click") none).store 4 = none) ∧
    (lookupS V2.emptySt.store 4 = none) ∧
    (V2.off V2.emptySt [4] (some "click") none = V2.emptySt) :=
  ⟨rfl,
   by
    have h := (C4_off_filter_semantics (V3.eventBind V3.emptySt [4] "click" 9 false false)
      V2.emptySt 4 (some "click") none).2.1
      [⟨0, "click", false, false, 9, .direct 4 "click"⟩] rfl
    exact h.2.1.trans (by rfl),
   rfl,
   (C4_off_filter_semantics (V3.eventBind V3.emptySt [4] "click" 9 false false)
      V2.emptySt 4 (some "click") none).2.2.1 rfl⟩

end DDom
